import Mathlib

/-!
# image-masters: verification of the batch transcoding core of `src/app.js`

The development embeds the logic of `src/app.js` that carries no DOM work:
`calculateDimensions`, `getMimeType`, `getNewFileName`, `optimizeImage`,
`processImages` and `removeImage`.

Conventions of the embedding.
* A JavaScript number is a finite IEEE 754 double, which is a rational. `calculateDimensions` is
  embedded twice: `calculateDimensionsDouble` rounds the result of every division and
  multiplication to the nearest double, as the code does; `calculateDimensions` keeps every
  result exact, the idealisation under which several claims are worded ("arithmetic taken as
  exact rationals"). `Math.round` is exact on a double: round-half-up, `⌊x + 1/2⌋`.
* `null` for a numeric setting is `none`; the test `maxWidth && ...` is JavaScript truthiness,
  which for a number means "not zero".
* Strings are Lean strings; the two characters the file-name pattern inspects (`.` and `/`)
  are single code units, so the code-unit view and the character view coincide for it.
* The DOM is not part of the state. Where a DOM-building function can throw
  (`createImageCard`), the embedding keeps whether it throws.
-/

namespace ImageMasters

/-! ## Dimension calculator (`src/app.js`, lines 232-247), exact arithmetic -/

/-- The object `{ width, height }` returned by `calculateDimensions`. -/
structure Dimensions where
  width : ℤ
  height : ℤ
deriving DecidableEq, Repr

/-- Source `Math.round` on an exact rational: the nearest integer, ties going up. -/
def mathRound (x : ℚ) : ℤ := ⌊x + 1 / 2⌋

/-- JavaScript truthiness of a setting that is `null` or a number. -/
def truthy : Option ℚ → Bool
  | none => false
  | some m => decide (m ≠ 0)

/-- The numeric value of a truthy setting (only read behind `truthy`). -/
def numberOf : Option ℚ → ℚ
  | none => 0
  | some m => m

/-- First `if` of `calculateDimensions`: fit the width.
Returns the pair `(width, height)` after the statement. -/
def fitWidth (width height : ℚ) (maxWidth : Option ℚ) : ℚ × ℚ :=
  if truthy maxWidth = true ∧ width > numberOf maxWidth then
    (numberOf maxWidth, (numberOf maxWidth / width) * height)
  else
    (width, height)

/-- Second `if` of `calculateDimensions`: fit the height.
Returns the pair `(width, height)` after the statement. -/
def fitHeight (width height : ℚ) (maxHeight : Option ℚ) : ℚ × ℚ :=
  if truthy maxHeight = true ∧ height > numberOf maxHeight then
    ((numberOf maxHeight / height) * width, numberOf maxHeight)
  else
    (width, height)

/-- Source function `calculateDimensions(originalWidth, originalHeight, maxWidth, maxHeight)`
with arithmetic taken as exact rationals: the two fitting statements in source order, then
`Math.round` on each component. The double-precision computation of the code is
`calculateDimensionsDouble`; the two can differ by one where an exact value sits on a
rounding tie. -/
def calculateDimensions (originalWidth originalHeight : ℚ)
    (maxWidth maxHeight : Option ℚ) : Dimensions :=
  let step1 := fitWidth originalWidth originalHeight maxWidth
  let step2 := fitHeight step1.1 step1.2 maxHeight
  { width := mathRound step2.1, height := mathRound step2.2 }

/-- A setting as the claims range over it: unset, or a positive integer. -/
def ValidMax : Option ℕ → Prop
  | none => True
  | some m => 0 < m

instance (m : Option ℕ) : Decidable (ValidMax m) := by
  cases m <;> unfold ValidMax <;> infer_instance

/-- The setting as the JavaScript number-or-null the function receives. -/
def toSetting : Option ℕ → Option ℚ
  | none => none
  | some n => some (n : ℚ)

/-- Uniform fit-inside-box scale factor, following the words of the claim: the minimum of
`1`, `maxWidth / w` when `maxWidth` is set, and `maxHeight / h` when `maxHeight` is set. -/
def fitScale (w h : ℚ) (maxWidth maxHeight : Option ℚ) : ℚ :=
  let s0 : ℚ := 1
  let s1 := match maxWidth with
    | none => s0
    | some mw => min s0 (mw / w)
  match maxHeight with
    | none => s1
    | some mh => min s1 (mh / h)

/-- Uniform fit-inside-box scaling, following the words of the claim:
`(round (s * w), round (s * h))` for the scale factor `s` of `fitScale`. -/
def fitInsideBox (w h : ℚ) (maxWidth maxHeight : Option ℚ) : Dimensions :=
  { width := mathRound (fitScale w h maxWidth maxHeight * w),
    height := mathRound (fitScale w h maxWidth maxHeight * h) }

/-- The bound the claims put on an output component: no bound when the setting is unset,
`x ≤ m` when it is set to `m`. -/
def WithinMax (x : ℤ) : Option ℕ → Prop
  | none => True
  | some m => x ≤ (m : ℤ)

/-- Scale factor one limit alone asks for: `1` when unset, `min 1 (limit / extent)` when set. -/
def axisScale (extent : ℚ) : Option ℚ → ℚ
  | none => 1
  | some m => min 1 (m / extent)

/-! ## Double-precision arithmetic

JavaScript numbers are IEEE 754 binary64 values. A finite double is a rational, and each
arithmetic operation returns the double nearest to the exact result, ties going to the even
significand. `Math.round` and the comparisons are exact on doubles. -/

/-- Nearest integer, ties to the even one. -/
def roundHalfEven (q : ℚ) : ℤ :=
  if q - ⌊q⌋ < 1 / 2 then ⌊q⌋
  else if q - ⌊q⌋ > 1 / 2 then ⌊q⌋ + 1
  else if ⌊q⌋ % 2 = 0 then ⌊q⌋ else ⌊q⌋ + 1

/-- The double nearest to the rational `x` (round to nearest, ties to even): 53 significant
bits at the binary exponent of `x`, the exponent held at `-1022` for subnormal results.
Overflow to infinity (`|x| ≥ 2 ^ 1024`) lies outside the rationals and is not represented. -/
def roundToDouble (x : ℚ) : ℚ :=
  if x = 0 then 0
  else (roundHalfEven (x / 2 ^ (max (Int.log 2 |x|) (-1022) - 52)) : ℚ)
    * 2 ^ (max (Int.log 2 |x|) (-1022) - 52)

/-- First `if` of `calculateDimensions` with every arithmetic result rounded by `fl`:
`height = (maxWidth / width) * height` is a division and a multiplication, each rounded. -/
def fitWidthWith (fl : ℚ → ℚ) (width height : ℚ) (maxWidth : Option ℚ) : ℚ × ℚ :=
  if truthy maxWidth = true ∧ width > numberOf maxWidth then
    (numberOf maxWidth, fl (fl (numberOf maxWidth / width) * height))
  else
    (width, height)

/-- Second `if` of `calculateDimensions` with every arithmetic result rounded by `fl`. -/
def fitHeightWith (fl : ℚ → ℚ) (width height : ℚ) (maxHeight : Option ℚ) : ℚ × ℚ :=
  if truthy maxHeight = true ∧ height > numberOf maxHeight then
    (fl (fl (numberOf maxHeight / height) * width), numberOf maxHeight)
  else
    (width, height)

/-- The values of `width` and `height` just before the `return` of `calculateDimensions`,
with every arithmetic result rounded by `fl`. -/
def scaledWith (fl : ℚ → ℚ) (originalWidth originalHeight : ℚ)
    (maxWidth maxHeight : Option ℚ) : ℚ × ℚ :=
  fitHeightWith fl (fitWidthWith fl originalWidth originalHeight maxWidth).1
    (fitWidthWith fl originalWidth originalHeight maxWidth).2 maxHeight

/-- Source function `calculateDimensions` with every arithmetic result rounded by `fl`;
`Math.round` is exact. With `fl` the identity this is `calculateDimensions`. -/
def calculateDimensionsWith (fl : ℚ → ℚ) (originalWidth originalHeight : ℚ)
    (maxWidth maxHeight : Option ℚ) : Dimensions :=
  { width := mathRound (scaledWith fl originalWidth originalHeight maxWidth maxHeight).1,
    height := mathRound (scaledWith fl originalWidth originalHeight maxWidth maxHeight).2 }

/-- Source function `calculateDimensions` as JavaScript runs it, in double precision. -/
def calculateDimensionsDouble (originalWidth originalHeight : ℚ)
    (maxWidth maxHeight : Option ℚ) : Dimensions :=
  calculateDimensionsWith roundToDouble originalWidth originalHeight maxWidth maxHeight

/-- Unit roundoff of double precision. -/
def unitRoundoff : ℚ := 1 / 2 ^ 53

/-- The factor `1 / (1 - u)` by which one rounding can move a positive value. -/
def roundFactor : ℚ := 2 ^ 53 / (2 ^ 53 - 1)

/-- Two positive values within `k` roundings of each other: each is at most the other times
`roundFactor ^ k`. -/
def Close (k : ℕ) (a b : ℚ) : Prop :=
  0 < a ∧ 0 < b ∧ a ≤ b * roundFactor ^ k ∧ b ≤ a * roundFactor ^ k

/-- A rounding that keeps relative error within the unit roundoff on the normal range. -/
def RoundsWithin (fl : ℚ → ℚ) : Prop :=
  ∀ x : ℚ, (1 : ℚ) / 2 ^ 1022 ≤ x → x * (1 - unitRoundoff) ≤ fl x ∧ fl x ≤ x * (1 + unitRoundoff)

/-! ## Codec helpers (`src/app.js`, lines 431-443) -/

/-- The values the expression `mimeTypes[format] || 'image/webp'` can produce: a string, or the
member that every object literal inherits from `Object.prototype` under the given key
(a built-in function, and for `__proto__` the prototype object itself). -/
inductive JSValue where
  | str (s : String)
  | inherited (key : String)
deriving DecidableEq, Repr

/-- JavaScript truthiness: a string is truthy unless empty; functions and objects are truthy. -/
def JSValue.isTruthy : JSValue → Bool
  | .str s => s != ""
  | .inherited _ => true

/-- The own properties of the object literal `mimeTypes` in `getMimeType`. -/
def mimeTypes : List (String × String) :=
  [("webp", "image/webp"), ("jpeg", "image/jpeg"), ("png", "image/png")]

/-- The property names of `Object.prototype` (ECMAScript, section "Properties of the Object
Prototype Object"), which a lookup on an object literal reaches through the prototype chain. -/
def objectPrototypeKeys : List String :=
  ["constructor", "hasOwnProperty", "isPrototypeOf", "propertyIsEnumerable",
   "toLocaleString", "toString", "valueOf", "__proto__",
   "__defineGetter__", "__defineSetter__", "__lookupGetter__", "__lookupSetter__"]

/-- Property read `obj[key]` on an object literal with the given own properties:
own properties first, then the prototype chain; `none` is `undefined`. -/
def getProperty (own : List (String × String)) (key : String) : Option JSValue :=
  match own.lookup key with
  | some v => some (JSValue.str v)
  | none => if key ∈ objectPrototypeKeys then some (JSValue.inherited key) else none

/-- Source function `getMimeType(format)`: `return mimeTypes[format] || 'image/webp'`. -/
def getMimeType (format : String) : JSValue :=
  match getProperty mimeTypes format with
  | some v => if v.isTruthy then v else JSValue.str "image/webp"
  | none => JSValue.str "image/webp"

/-- Does the pattern `\.[^/.]+$` match the whole of the given text, from its first character
to the end of input: a `.`, then one or more characters none of which is `/` or `.`. -/
def matchesExtension : List Char → Bool
  | [] => false
  | c :: rest => c == '.' && !rest.isEmpty && rest.all (fun d => d != '/' && d != '.')

/-- Source expression `text.replace(/\.[^/.]+$/, '')`: start positions are tried from the left; at the first one
where the pattern matches, the match (which runs to the end of input) is replaced by the empty
string; without a match the text is returned unchanged. -/
def replaceExtension : List Char → List Char
  | [] => []
  | c :: cs => if matchesExtension (c :: cs) then [] else c :: replaceExtension cs

/-- Source function `getNewFileName(originalName, format)`: the extension pattern is replaced
by the empty string, then a `.` and the format are appended. -/
def getNewFileName (originalName format : String) : String :=
  let nameWithoutExt := String.mk (replaceExtension originalName.data)
  nameWithoutExt ++ "." ++ format

/-- The text before the last `.`, following the claim's words; `none` when there is no `.`. -/
def beforeLastDot : List Char → Option (List Char)
  | [] => none
  | c :: cs =>
    match beforeLastDot cs with
    | some pre => some (c :: pre)
    | none => if c = '.' then some [] else none

/-- The text after the last `.`; `none` when there is no `.`. -/
def afterLastDot : List Char → Option (List Char)
  | [] => none
  | c :: cs =>
    match afterLastDot cs with
    | some suf => some suf
    | none => if c = '.' then some cs else none

/-- The base name as the claim words it: the name with everything from its last `.` to the end
removed, or the whole name when it contains no `.`. -/
def claimedBase (name : List Char) : List Char :=
  (beforeLastDot name).getD name

/-- The file name the claim words: claimed base, a `.`, and the format. -/
def claimedFileName (originalName format : String) : String :=
  String.mk (claimedBase originalName.data) ++ "." ++ format

/-- The base name the code computes: the last `.` and what follows it are removed only when
what follows is non-empty and holds no `/`; otherwise the whole name is kept. -/
def strippedBase (name : List Char) : List Char :=
  match beforeLastDot name, afterLastDot name with
  | some pre, some suf => if suf ≠ [] ∧ '/' ∉ suf then pre else name
  | _, _ => name

/-! ## State, transcoder and batch run (`src/app.js`, lines 2-11, 127-229, 375-383) -/

/-- A browser `File`: what `addFiles` reads from it. -/
structure File where
  name : String
  size : ℕ
  type : String
deriving DecidableEq, Repr

/-- A browser `Blob` produced by `canvas.toBlob`. -/
structure Blob where
  size : ℕ
  bytes : String
deriving DecidableEq, Repr

/-- The object `optimizeImage` resolves with. -/
structure ProcessedResult where
  id : String
  originalName : String
  name : String
  originalSize : ℕ
  size : ℕ
  width : ℤ
  height : ℤ
  dataUrl : String
  blob : Blob
  format : String
deriving DecidableEq, Repr

/-- An element of `state.images`. The properties `processed` and `isProcessed` are absent on a
record pushed by `addFiles`; absent is `none` and `false` here. -/
structure ImageRecord where
  id : String
  file : File
  name : String
  size : ℕ
  type : String
  dataUrl : String
  processed : Option ProcessedResult
  isProcessed : Bool
deriving DecidableEq, Repr

/-- The object `state.settings`. -/
structure Settings where
  format : String
  quality : ℚ
  maxWidth : Option ℚ
  maxHeight : Option ℚ
deriving DecidableEq, Repr

/-- The object `state`. `images` is a JavaScript array, which may hold holes after an
assignment past its end: `none` is a hole, `some r` a record. -/
structure State where
  images : List (Option ImageRecord)
  processedImages : List ProcessedResult
  settings : Settings
deriving DecidableEq, Repr

/-- The initial `state` of the source. -/
def initialState : State :=
  { images := [], processedImages := [],
    settings := { format := "webp", quality := 85, maxWidth := none, maxHeight := none } }

/-- The records held by an array, in order, holes skipped. -/
def records (images : List (Option ImageRecord)) : List ImageRecord :=
  images.filterMap (fun x => x)

/-- A record is pending when it carries no processed result (the card test of
`createImageCard` negated: `image.isProcessed && image.processed`). -/
def ImageRecord.isPending (r : ImageRecord) : Bool :=
  !(r.isProcessed && r.processed.isSome)

/-- The parts of the browser `optimizeImage` relies on.
`load dataUrl` is the outcome of loading the data URL into an `Image`: the decoded
`(width, height)` on `onload`, `none` on `onerror`.
`encode dataUrl size mimeType quality` is the canvas drawing, `canvas.toBlob` and the
`FileReader` pass together: the blob and its data URL, or `none` when `toBlob` hands over
`null` or the canvas calls throw. -/
structure Browser where
  load : String → Option (ℚ × ℚ)
  encode : String → Dimensions → JSValue → ℚ → Option (Blob × String)

/-- Source function `optimizeImage(image)` awaited, for a record `image`: `some result` when the promise
resolves, `none` when it rejects (`onerror`, a thrown error, or a `null` blob). -/
def optimizeImage (browser : Browser) (settings : Settings) (image : ImageRecord) :
    Option ProcessedResult :=
  match browser.load image.dataUrl with
  | none => none
  | some (imgWidth, imgHeight) =>
    let dims := calculateDimensions imgWidth imgHeight settings.maxWidth settings.maxHeight
    let mimeType := getMimeType settings.format
    let quality := settings.quality / 100
    match browser.encode image.dataUrl dims mimeType quality with
    | none => none
    | some (blob, readerResult) =>
      some { id := image.id,
             originalName := image.name,
             name := getNewFileName image.name settings.format,
             originalSize := image.size,
             size := blob.size,
             width := dims.width,
             height := dims.height,
             dataUrl := readerResult,
             blob := blob,
             format := settings.format }

/-- Array element assignment `xs[i] = x`: inside the array the element is replaced; at or past
the end the array grows, the skipped positions becoming holes. -/
def arrayAssign (xs : List (Option ImageRecord)) (i : ℕ) (x : ImageRecord) :
    List (Option ImageRecord) :=
  if i < xs.length then xs.set i (some x)
  else xs ++ List.replicate (i - xs.length) none ++ [some x]

/-- The record written back on success: `{ ...image, processed: processed, isProcessed: true }`. -/
def markProcessed (image : ImageRecord) (processed : ProcessedResult) : ImageRecord :=
  { image with processed := some processed, isProcessed := true }

/-- The rest of one loop iteration of `processImages`, once `await optimizeImage(image)` has
settled. On success the result is pushed to `state.processedImages` and `state.images[i]` is
replaced; on failure the `catch` block only logs. `image` is the record read from
`state.images[i]` before the `await`. -/
def settle (st : State) (i : ℕ) (image : ImageRecord) : Option ProcessedResult → State
  | none => st
  | some processed =>
    { st with
      processedImages := st.processedImages ++ [processed],
      images := arrayAssign st.images i (markProcessed image processed) }

/-- The `for` loop of `processImages`, from index `i` on. `optimize i image` is the outcome of
`await optimizeImage(image)` in iteration `i` (`none`: the promise rejected). When
`state.images[i]` is a hole, `image` is undefined, reading `image.dataUrl` throws inside the
promise executor and the promise rejects, so the iteration changes nothing. The second
component of the result lists the arguments `optimizeImage` was called with, in call order.
`fuel` bounds the number of iterations; `none` means the fuel ran out before the loop condition
failed. -/
def processLoop (optimize : ℕ → ImageRecord → Option ProcessedResult) :
    ℕ → ℕ → State → List (Option ImageRecord) → Option (State × List (Option ImageRecord))
  | 0, i, st, calls => if i < st.images.length then none else some (st, calls)
  | fuel + 1, i, st, calls =>
    if i < st.images.length then
      match st.images.getD i none with
      | none => processLoop optimize fuel (i + 1) st (calls ++ [none])
      | some image =>
        processLoop optimize fuel (i + 1) (settle st i image (optimize i image))
          (calls ++ [some image])
    else some (st, calls)

/-- Source function `processImages()` with no other task interleaved: early return on an empty array, reset of
`state.processedImages`, then the loop. -/
def processImages (optimize : ℕ → ImageRecord → Option ProcessedResult)
    (fuel : ℕ) (st : State) : Option (State × List (Option ImageRecord)) :=
  if st.images.length = 0 then some (st, [])
  else processLoop optimize fuel 0 { st with processedImages := [] } []

/-- Source function `createImageCard(image)`, reduced to whether it returns (`true`) or throws
(`false`); the card itself is DOM. A processed record (`image.isProcessed && image.processed`)
takes the first branch, which only reads properties that exist. Any other record takes the
`else` branch, where `image.type.split('/')[1].toUpperCase()` throws a `TypeError` when the
type holds no `/`: the split then has a single piece and index 1 is `undefined`. -/
def createImageCard (image : ImageRecord) : Bool :=
  if image.isProcessed && image.processed.isSome then true
  else decide ('/' ∈ image.type.data)

/-- Source function `updateUI()`, reduced to whether it returns (`true`) or throws (`false`):
`renderImagePreviews` calls `createImageCard` on every record of `state.images` (`forEach`
skips holes) and an exception thrown there propagates. The elements looked up by `init` are
taken to exist. -/
def updateUI (st : State) : Bool :=
  (records st.images).all createImageCard

/-- The outcome of a call that changes the state and may then throw. -/
structure CallResult where
  state : State
  threw : Bool
deriving DecidableEq, Repr

/-- Source function `removeImage(id)`: both arrays are filtered by `img.id !== id`
(`Array.prototype.filter` skips holes, so the new `state.images` has none), then `updateUI()`
runs on the new state; when that throws, the call throws with the state already changed. -/
def removeImage (id : String) (st : State) : CallResult :=
  let filtered : State :=
    { st with
      images := st.images.filter (fun x =>
        match x with
        | none => false
        | some img => img.id != id),
      processedImages := st.processedImages.filter (fun img => img.id != id) }
  { state := filtered, threw := !updateUI filtered }

/-- The record a position holds after its transcode settled: the record with the result
attached on success, the record itself on failure. -/
def outcomeRecord (r : ImageRecord) : Option ProcessedResult → ImageRecord
  | none => r
  | some processed => markProcessed r processed

/-- The results of the successful transcodes of a run over `recs` whose first record sits at
index `i`, in order. -/
def successes (optimize : ℕ → ImageRecord → Option ProcessedResult) :
    ℕ → List ImageRecord → List ProcessedResult
  | _, [] => []
  | i, r :: rs =>
    match optimize i r with
    | none => successes optimize (i + 1) rs
    | some processed => processed :: successes optimize (i + 1) rs

/-- The array a run over `recs` (first record at index `i`) is claimed to leave: at each
position the outcome record of that position. -/
def settledImages (optimize : ℕ → ImageRecord → Option ProcessedResult) :
    ℕ → List ImageRecord → List (Option ImageRecord)
  | _, [] => []
  | i, r :: rs => some (outcomeRecord r (optimize i r)) :: settledImages optimize (i + 1) rs

/-- Iteration `i` of the loop with a `removeImage(id)` click handled while the loop is
suspended at `await optimizeImage(image)`: the record is read from `state.images[i]` first,
the click handler runs on the state (whether or not it then throws), then the iteration
settles on the state it finds. -/
def iterationWithRemoval (optimize : ℕ → ImageRecord → Option ProcessedResult)
    (i : ℕ) (id : String) (st : State) : State :=
  match st.images.getD i none with
  | none => (removeImage id st).state
  | some image => settle (removeImage id st).state i image (optimize i image)

/-! ### Example data -/

/-- A pending record as `addFiles` pushes it. -/
def pendingRecord (id name : String) : ImageRecord :=
  { id := id, file := { name := name, size := 2048, type := "image/jpeg" },
    name := name, size := 2048, type := "image/jpeg",
    dataUrl := "data:image/jpeg;base64," ++ id, processed := none, isProcessed := false }

/-- A result object, as a transcoder outcome in the examples. -/
def sampleResult (id : String) : ProcessedResult :=
  { id := id, originalName := id ++ ".jpg", name := id ++ ".webp", originalSize := 2048,
    size := 1024, width := 4000, height := 2000, dataUrl := "data:image/webp;base64," ++ id,
    blob := { size := 1024, bytes := id }, format := "webp" }

/-- A transcoder outcome assignment in which the transcode at index 1 fails and every other
one succeeds. -/
def secondFails : ℕ → ImageRecord → Option ProcessedResult :=
  fun i r => if i = 1 then none else some (sampleResult r.id)

/-- Three pending records. -/
def threePending : List ImageRecord :=
  [pendingRecord "a" "a.jpg", pendingRecord "b" "b.jpg", pendingRecord "c" "c.jpg"]

/-- A browser in which every image decodes to 4000 x 2000 and every encoding succeeds. -/
def sampleBrowser : Browser :=
  { load := fun _ => some (4000, 2000),
    encode := fun _ _ _ _ => some ({ size := 1024, bytes := "RIFF" }, "data:image/webp;base64,UklGRg") }

/-- The state with two pending records `a` and `b`, as a run finds it after the reset of
`state.processedImages`. -/
def twoPendingState : State :=
  { initialState with
    images := [some (pendingRecord "a" "a.jpg"), some (pendingRecord "b" "b.jpg")] }

/-- A state holding one pending record whose file had no content type: `file.type` is the
empty string for a file of unknown type chosen in the file picker, which `handleFileSelect`
passes on unfiltered. -/
def untypedState : State :=
  { initialState with
    images := [some { pendingRecord "u" "scan" with
      file := { name := "scan", size := 2048, type := "" }, type := "" }] }

/-- The state reached from records `a` and `b` when, while the run is suspended in iteration 1
at the transcode of `b`, both records are removed and the transcode then resolves: the
assignment to index 1 of the emptied array leaves a hole at index 0. -/
def holeState : State :=
  settle (removeImage "b" (removeImage "a" twoPendingState).state).state 1
    (pendingRecord "b" "b.jpg") (some (sampleResult "b"))

/-! ### Rounding facts -/

theorem mathRound_intCast (n : ℤ) : mathRound (n : ℚ) = n := by
  unfold mathRound
  rw [Int.floor_eq_iff]
  constructor <;> linarith

theorem mathRound_natCast (n : ℕ) : mathRound (n : ℚ) = n := by
  have := mathRound_intCast (n : ℤ)
  simpa using this

theorem mathRound_mono {x y : ℚ} (h : x ≤ y) : mathRound x ≤ mathRound y := by
  unfold mathRound
  exact Int.floor_mono (by linarith)

theorem mathRound_sub_le (x : ℚ) : |(mathRound x : ℚ) - x| ≤ 1 / 2 := by
  unfold mathRound
  have h1 := Int.floor_le (x + 1 / 2)
  have h2 := Int.lt_floor_add_one (x + 1 / 2)
  rw [abs_le]
  constructor <;> linarith

theorem one_le_mathRound_iff (x : ℚ) : 1 ≤ mathRound x ↔ 1 / 2 ≤ x := by
  unfold mathRound
  rw [Int.le_floor]
  constructor <;> intro h <;> push_cast at * <;> linarith

theorem mathRound_nonneg {x : ℚ} (h : 0 ≤ x) : 0 ≤ mathRound x := by
  unfold mathRound
  rw [Int.le_floor]
  push_cast
  linarith

/-! ### The two fitting steps as one uniform scale -/

theorem axisScale_none (e : ℚ) : axisScale e none = 1 := rfl

theorem axisScale_some (e m : ℚ) : axisScale e (some m) = min 1 (m / e) := rfl

theorem axisScale_pos (e : ℚ) (he : 0 < e) (mx : Option ℚ)
    (hmx : ∀ m, mx = some m → 0 < m) : 0 < axisScale e mx := by
  cases mx with
  | none => simp [axisScale_none]
  | some a =>
    rw [axisScale_some]
    exact lt_min one_pos (div_pos (hmx a rfl) he)

theorem fitScale_eq_none (W H : ℚ) (mw : Option ℚ) :
    fitScale W H mw none = axisScale W mw := by
  cases mw <;> rfl

theorem fitScale_eq_some (W H b : ℚ) (mw : Option ℚ) :
    fitScale W H mw (some b) = min (axisScale W mw) (b / H) := by
  cases mw <;> rfl

theorem fitWidth_eq (W H : ℚ) (hW : 0 < W) (mw : Option ℚ)
    (hmw : ∀ m, mw = some m → 0 < m) :
    fitWidth W H mw = (axisScale W mw * W, axisScale W mw * H) := by
  cases mw with
  | none => simp [fitWidth, truthy, axisScale_none]
  | some m =>
    have hm : 0 < m := hmw m rfl
    have hne : m ≠ 0 := ne_of_gt hm
    simp only [fitWidth, truthy, numberOf, axisScale_some]
    by_cases h : W > m
    · have hlt : m / W < 1 := (div_lt_one hW).mpr h
      rw [if_pos ⟨by simpa using hne, h⟩, min_eq_right hlt.le]
      have : m / W * W = m := div_mul_cancel₀ m (ne_of_gt hW)
      rw [this]
    · have hge : 1 ≤ m / W := (one_le_div hW).mpr (not_lt.mp h)
      rw [if_neg (fun hc => h hc.2), min_eq_left hge]
      simp

theorem fitHeight_eq (w h : ℚ) (hh : 0 < h) (mh : Option ℚ)
    (hmh : ∀ m, mh = some m → 0 < m) :
    fitHeight w h mh = (axisScale h mh * w, axisScale h mh * h) := by
  cases mh with
  | none => simp [fitHeight, truthy, axisScale_none]
  | some m =>
    have hm : 0 < m := hmh m rfl
    have hne : m ≠ 0 := ne_of_gt hm
    simp only [fitHeight, truthy, numberOf, axisScale_some]
    by_cases hgt : h > m
    · have hlt : m / h < 1 := (div_lt_one hh).mpr hgt
      rw [if_pos ⟨by simpa using hne, hgt⟩, min_eq_right hlt.le]
      have : m / h * h = m := div_mul_cancel₀ m (ne_of_gt hh)
      rw [this]
    · have hge : 1 ≤ m / h := (one_le_div hh).mpr (not_lt.mp hgt)
      rw [if_neg (fun hc => hgt hc.2), min_eq_left hge]
      simp

theorem fitScale_pos (W H : ℚ) (hW : 0 < W) (hH : 0 < H) (mw mh : Option ℚ)
    (hmw : ∀ m, mw = some m → 0 < m) (hmh : ∀ m, mh = some m → 0 < m) :
    0 < fitScale W H mw mh := by
  have h1 := axisScale_pos W hW mw hmw
  cases mh with
  | none => rw [fitScale_eq_none]; exact h1
  | some b =>
    rw [fitScale_eq_some]
    exact lt_min h1 (div_pos (hmh b rfl) hH)

theorem fitScale_le_one (W H : ℚ) (mw mh : Option ℚ) : fitScale W H mw mh ≤ 1 := by
  cases mw <;> cases mh <;> simp [fitScale]

/-- Both fitting steps together scale the original size by `fitScale`. -/
theorem fit_steps_eq (W H : ℚ) (hW : 0 < W) (hH : 0 < H) (mw mh : Option ℚ)
    (hmw : ∀ m, mw = some m → 0 < m) (hmh : ∀ m, mh = some m → 0 < m) :
    fitHeight (fitWidth W H mw).1 (fitWidth W H mw).2 mh =
      (fitScale W H mw mh * W, fitScale W H mw mh * H) := by
  rw [fitWidth_eq W H hW mw hmw]
  have hs1pos : 0 < axisScale W mw := axisScale_pos W hW mw hmw
  have hh : 0 < axisScale W mw * H := mul_pos hs1pos hH
  simp only []
  rw [fitHeight_eq (axisScale W mw * W) (axisScale W mw * H) hh mh hmh]
  have key : axisScale (axisScale W mw * H) mh * axisScale W mw = fitScale W H mw mh := by
    cases mh with
    | none => rw [axisScale_none, fitScale_eq_none, one_mul]
    | some b =>
      rw [axisScale_some, fitScale_eq_some, min_mul_of_nonneg _ _ hs1pos.le, one_mul]
      congr 1
      field_simp
      ring
  rw [← key]
  ext <;> simp [mul_assoc]

theorem calculateDimensions_eq_fitInsideBox (W H : ℚ) (hW : 0 < W) (hH : 0 < H)
    (mw mh : Option ℚ)
    (hmw : ∀ m, mw = some m → 0 < m) (hmh : ∀ m, mh = some m → 0 < m) :
    calculateDimensions W H mw mh = fitInsideBox W H mw mh := by
  simp only [calculateDimensions, fitInsideBox, fit_steps_eq W H hW hH mw mh hmw hmh]

theorem toSetting_pos (m : Option ℕ) (hm : ValidMax m) :
    ∀ q, toSetting m = some q → 0 < q := by
  intro q hq
  cases m with
  | none => simp [toSetting] at hq
  | some n =>
    have hn : (0 : ℚ) < (n : ℚ) := by exact_mod_cast hm
    simp [toSetting] at hq
    rw [← hq]
    exact hn

theorem fitScale_mul_le_maxWidth (W H m : ℚ) (hW : 0 < W) (mh : Option ℚ) :
    fitScale W H (some m) mh * W ≤ m := by
  have h1 : fitScale W H (some m) mh ≤ m / W := by
    cases mh with
    | none => simp [fitScale]
    | some b => simp only [fitScale]; exact le_trans (min_le_left _ _) (min_le_right _ _)
  calc fitScale W H (some m) mh * W ≤ m / W * W := mul_le_mul_of_nonneg_right h1 hW.le
    _ = m := div_mul_cancel₀ m (ne_of_gt hW)

theorem fitScale_mul_le_maxHeight (W H m : ℚ) (hH : 0 < H) (mw : Option ℚ) :
    fitScale W H mw (some m) * H ≤ m := by
  have h1 : fitScale W H mw (some m) ≤ m / H := by
    cases mw <;> simp [fitScale]
  calc fitScale W H mw (some m) * H ≤ m / H * H := mul_le_mul_of_nonneg_right h1 hH.le
    _ = m := div_mul_cancel₀ m (ne_of_gt hH)

theorem fitScale_swap (W H : ℚ) (mw mh : Option ℚ) :
    fitScale W H mw mh = fitScale H W mh mw := by
  cases mw <;> cases mh <;> simp [fitScale, min_assoc, min_comm, min_left_comm]

theorem intCast_pos_rat {n : ℤ} (h : 0 < n) : (0 : ℚ) < (n : ℚ) := by
  exact_mod_cast h

/-! ### Double rounding -/

theorem int_log_two_eq (x : ℚ) (e : ℤ) (h1 : (2 : ℚ) ^ e ≤ x) (h2 : x < (2 : ℚ) ^ (e + 1)) :
    Int.log 2 x = e := by
  have hx : 0 < x := lt_of_lt_of_le (zpow_pos (by norm_num) e) h1
  have a1 : e ≤ Int.log 2 x :=
    (Int.zpow_le_iff_le_log (by norm_num) hx).mp (by simpa using h1)
  have a2 : Int.log 2 x < e + 1 :=
    (Int.lt_zpow_iff_log_lt (by norm_num) hx).mp (by simpa using h2)
  omega

theorem roundHalfEven_eq_of_lt (q : ℚ) (m : ℤ) (h1 : (m : ℚ) - 1 / 2 < q)
    (h2 : q < (m : ℚ) + 1 / 2) : roundHalfEven q = m := by
  have hf1 := Int.floor_le q
  have hf2 := Int.lt_floor_add_one q
  have hlo : m - 1 ≤ ⌊q⌋ := by
    rw [Int.le_floor]
    push_cast
    linarith
  have hhi : ⌊q⌋ ≤ m := by
    have : ⌊q⌋ < m + 1 := by
      rw [Int.floor_lt]
      push_cast
      linarith
    omega
  rcases (by omega : ⌊q⌋ = m - 1 ∨ ⌊q⌋ = m) with h | h
  · have hq : (⌊q⌋ : ℚ) = (m : ℚ) - 1 := by rw [h]; push_cast; ring
    unfold roundHalfEven
    rw [if_neg (by rw [hq]; linarith), if_pos (by rw [hq]; linarith), h]
    ring
  · have hq : (⌊q⌋ : ℚ) = (m : ℚ) := by rw [h]
    unfold roundHalfEven
    rw [if_pos (by rw [hq]; linarith), h]

theorem roundHalfEven_sub_le (q : ℚ) : |(roundHalfEven q : ℚ) - q| ≤ 1 / 2 := by
  have hf1 := Int.floor_le q
  have hf2 := Int.lt_floor_add_one q
  unfold roundHalfEven
  rw [abs_le]
  split_ifs with a b c
  · constructor <;> linarith
  · push_cast; constructor <;> linarith
  · constructor <;> linarith
  · push_cast; constructor <;> linarith

theorem roundHalfEven_nonneg (q : ℚ) (hq : 0 ≤ q) : 0 ≤ roundHalfEven q := by
  have h0 : 0 ≤ ⌊q⌋ := Int.floor_nonneg.mpr hq
  unfold roundHalfEven
  split_ifs <;> omega

/-- Evaluation of `roundToDouble` from the binary exponent and the rounded significand. -/
theorem roundToDouble_eq (x : ℚ) (e m : ℤ) (h1 : (2 : ℚ) ^ e ≤ |x|)
    (h2 : |x| < (2 : ℚ) ^ (e + 1)) (he : -1022 ≤ e)
    (hm1 : (m : ℚ) - 1 / 2 < x / 2 ^ (e - 52)) (hm2 : x / 2 ^ (e - 52) < (m : ℚ) + 1 / 2) :
    roundToDouble x = (m : ℚ) * 2 ^ (e - 52) := by
  have hx : x ≠ 0 := by
    intro h
    rw [h, abs_zero] at h1
    exact absurd h1 (not_le.mpr (zpow_pos (by norm_num) e))
  have hlog := int_log_two_eq |x| e h1 h2
  unfold roundToDouble
  rw [if_neg hx, hlog, max_eq_left he, roundHalfEven_eq_of_lt _ m hm1 hm2]

theorem roundToDouble_nonneg (x : ℚ) (hx : 0 ≤ x) : 0 ≤ roundToDouble x := by
  unfold roundToDouble
  split_ifs with h
  · exact le_refl 0
  · have hp : (0 : ℚ) < 2 ^ (max (Int.log 2 |x|) (-1022) - 52) := zpow_pos (by norm_num) _
    have hq : 0 ≤ x / 2 ^ (max (Int.log 2 |x|) (-1022) - 52) := div_nonneg hx hp.le
    have := roundHalfEven_nonneg _ hq
    exact mul_nonneg (by exact_mod_cast this) hp.le

/-- On the normal range a rounding to double moves a value by at most the unit roundoff,
relatively. -/
theorem roundToDouble_roundsWithin : RoundsWithin roundToDouble := by
  intro x hx
  have hpos : 0 < x := lt_of_lt_of_le (by positivity) hx
  have habs : |x| = x := abs_of_pos hpos
  have hlo : (0 : ℚ) < 2 ^ (Int.log 2 x) := zpow_pos (by norm_num) _
  have h1 : (2 : ℚ) ^ (Int.log 2 x) ≤ x := by
    simpa using Int.zpow_log_le_self (b := 2) (r := x) (by norm_num) hpos
  have he : -1022 ≤ Int.log 2 x := by
    apply (Int.zpow_le_iff_le_log (b := 2) (by norm_num) hpos).mp
    have : ((2 : ℕ) : ℚ) ^ (-1022 : ℤ) = 1 / 2 ^ 1022 := by
      rw [zpow_neg]
      norm_num
    rw [this]
    exact hx
  set e := Int.log 2 x with hedef
  have hulp : (0 : ℚ) < 2 ^ (e - 52) := zpow_pos (by norm_num) _
  have hsplit : (2 : ℚ) ^ (e - 52) = 2 ^ e / 2 ^ 52 := by
    rw [zpow_sub₀ (by norm_num)]
    norm_num
  have herr := roundHalfEven_sub_le (x / 2 ^ (e - 52))
  rw [abs_le] at herr
  have hfl : roundToDouble x = (roundHalfEven (x / 2 ^ (e - 52)) : ℚ) * 2 ^ (e - 52) := by
    unfold roundToDouble
    rw [if_neg (ne_of_gt hpos), habs, max_eq_left he]
  have hxq : x / 2 ^ (e - 52) * 2 ^ (e - 52) = x := div_mul_cancel₀ x (ne_of_gt hulp)
  have hhalf : (2 : ℚ) ^ (e - 52) * (1 / 2) ≤ x * unitRoundoff := by
    rw [hsplit]
    unfold unitRoundoff
    have : (2 : ℚ) ^ e / 2 ^ 52 * (1 / 2) = 2 ^ e * (1 / 2 ^ 53) := by
      norm_num
      ring
    rw [this]
    exact mul_le_mul_of_nonneg_right h1 (by positivity)
  rw [hfl]
  constructor
  · have : x - 2 ^ (e - 52) * (1 / 2) ≤
        (roundHalfEven (x / 2 ^ (e - 52)) : ℚ) * 2 ^ (e - 52) := by
      have := mul_le_mul_of_nonneg_right herr.1 hulp.le
      nlinarith [this, hxq]
    linarith
  · have : (roundHalfEven (x / 2 ^ (e - 52)) : ℚ) * 2 ^ (e - 52)
        ≤ x + 2 ^ (e - 52) * (1 / 2) := by
      have := mul_le_mul_of_nonneg_right herr.2 hulp.le
      nlinarith [this, hxq]
    linarith

/-! ### Error analysis of the two fitting steps -/

theorem roundFactor_ge_one : (1 : ℚ) ≤ roundFactor := by
  unfold roundFactor
  norm_num

theorem roundFactor_pos : (0 : ℚ) < roundFactor := lt_of_lt_of_le one_pos roundFactor_ge_one

theorem one_le_roundFactor_pow (k : ℕ) : (1 : ℚ) ≤ roundFactor ^ k :=
  one_le_pow₀ roundFactor_ge_one

theorem roundFactor_pow_mono {j k : ℕ} (h : j ≤ k) : roundFactor ^ j ≤ roundFactor ^ k :=
  pow_le_pow_right₀ roundFactor_ge_one h

theorem close_refl (k : ℕ) {a : ℚ} (ha : 0 < a) : Close k a a := by
  have h := one_le_roundFactor_pow k
  exact ⟨ha, ha, le_mul_of_one_le_right ha.le h, le_mul_of_one_le_right ha.le h⟩

theorem close_symm {k : ℕ} {a b : ℚ} (h : Close k a b) : Close k b a :=
  ⟨h.2.1, h.1, h.2.2.2, h.2.2.1⟩

theorem close_mono {j k : ℕ} {a b : ℚ} (h : Close j a b) (hjk : j ≤ k) : Close k a b := by
  obtain ⟨ha, hb, h1, h2⟩ := h
  have hm := roundFactor_pow_mono hjk
  exact ⟨ha, hb, le_trans h1 (mul_le_mul_of_nonneg_left hm hb.le),
    le_trans h2 (mul_le_mul_of_nonneg_left hm ha.le)⟩

theorem close_trans {j k n : ℕ} {a b c : ℚ} (h1 : Close j a b) (h2 : Close k b c)
    (hn : j + k = n) : Close n a c := by
  subst hn
  obtain ⟨ha, _, hab, hba⟩ := h1
  obtain ⟨_, hc, hbc, hcb⟩ := h2
  have hj : (0 : ℚ) ≤ roundFactor ^ j := (pow_pos roundFactor_pos j).le
  refine ⟨ha, hc, ?_, ?_⟩
  · calc a ≤ b * roundFactor ^ j := hab
      _ ≤ c * roundFactor ^ k * roundFactor ^ j := mul_le_mul_of_nonneg_right hbc hj
      _ = c * roundFactor ^ (j + k) := by rw [pow_add]; ring
  · have hk : (0 : ℚ) ≤ roundFactor ^ k := (pow_pos roundFactor_pos k).le
    calc c ≤ b * roundFactor ^ k := hcb
      _ ≤ a * roundFactor ^ j * roundFactor ^ k := mul_le_mul_of_nonneg_right hba hk
      _ = a * roundFactor ^ (j + k) := by rw [pow_add]; ring

theorem close_mul_right {k : ℕ} {a b : ℚ} (h : Close k a b) {c : ℚ} (hc : 0 < c) :
    Close k (a * c) (b * c) := by
  obtain ⟨ha, hb, h1, h2⟩ := h
  refine ⟨mul_pos ha hc, mul_pos hb hc, ?_, ?_⟩
  · calc a * c ≤ b * roundFactor ^ k * c := mul_le_mul_of_nonneg_right h1 hc.le
      _ = b * c * roundFactor ^ k := by ring
  · calc b * c ≤ a * roundFactor ^ k * c := mul_le_mul_of_nonneg_right h2 hc.le
      _ = a * c * roundFactor ^ k := by ring

theorem close_div_left {k : ℕ} {a b : ℚ} (h : Close k a b) {m : ℚ} (hm : 0 < m) :
    Close k (m / a) (m / b) := by
  obtain ⟨ha, hb, h1, h2⟩ := h
  have hr : (0 : ℚ) < roundFactor ^ k := pow_pos roundFactor_pos k
  refine ⟨div_pos hm ha, div_pos hm hb, ?_, ?_⟩
  · rw [div_le_iff₀ ha]
    have : m / b * roundFactor ^ k * a = m * (a * roundFactor ^ k) / b := by ring
    rw [this, le_div_iff₀ hb]
    exact mul_le_mul_of_nonneg_left h2 hm.le
  · rw [div_le_iff₀ hb]
    have : m / a * roundFactor ^ k * b = m * (b * roundFactor ^ k) / a := by ring
    rw [this, le_div_iff₀ ha]
    exact mul_le_mul_of_nonneg_left h1 hm.le

theorem close_fl {fl : ℚ → ℚ} (hfl : RoundsWithin fl) {x : ℚ} (hx : (1 : ℚ) / 2 ^ 1022 ≤ x) :
    Close 1 (fl x) x := by
  have hpos : 0 < x := lt_of_lt_of_le (by positivity) hx
  obtain ⟨h1, h2⟩ := hfl x hx
  have hu : (0 : ℚ) < 1 - unitRoundoff := by unfold unitRoundoff; norm_num
  have hflpos : 0 < fl x := lt_of_lt_of_le (mul_pos hpos hu) h1
  have hr1 : (1 + unitRoundoff) ≤ roundFactor := by unfold unitRoundoff roundFactor; norm_num
  have hr2 : (1 - unitRoundoff) * roundFactor = 1 := by unfold unitRoundoff roundFactor; norm_num
  refine ⟨hflpos, hpos, ?_, ?_⟩
  · rw [pow_one]
    exact le_trans h2 (mul_le_mul_of_nonneg_left hr1 hpos.le)
  · rw [pow_one]
    calc x = x * (1 - unitRoundoff) * roundFactor := by rw [mul_assoc, hr2, mul_one]
      _ ≤ fl x * roundFactor := mul_le_mul_of_nonneg_right h1 roundFactor_pos.le

/-- The absolute distance of two values within `k` roundings of each other. -/
theorem close_abs_sub_le {k : ℕ} {a b B : ℚ} (h : Close k a b) (hB : b ≤ B) :
    |a - b| ≤ B * (roundFactor ^ k * (roundFactor ^ k - 1)) := by
  obtain ⟨ha, hb, h1, h2⟩ := h
  have hr := one_le_roundFactor_pow k
  have hB0 : 0 ≤ B := le_trans hb.le hB
  have hd : 0 ≤ roundFactor ^ k - 1 := by linarith
  have e1 : a - b ≤ B * (roundFactor ^ k * (roundFactor ^ k - 1)) := by
    have s1 : a - b ≤ b * (roundFactor ^ k - 1) := by linarith
    have s2 : b * (roundFactor ^ k - 1) ≤ B * (roundFactor ^ k - 1) :=
      mul_le_mul_of_nonneg_right hB hd
    have s3 : B * (roundFactor ^ k - 1) ≤ B * (roundFactor ^ k * (roundFactor ^ k - 1)) := by
      apply mul_le_mul_of_nonneg_left _ hB0
      exact le_mul_of_one_le_left hd hr
    linarith
  have e2 : b - a ≤ B * (roundFactor ^ k * (roundFactor ^ k - 1)) := by
    have s1 : b - a ≤ a * (roundFactor ^ k - 1) := by linarith
    have s2 : a * (roundFactor ^ k - 1) ≤ b * roundFactor ^ k * (roundFactor ^ k - 1) :=
      mul_le_mul_of_nonneg_right h1 hd
    have s3 : b * roundFactor ^ k * (roundFactor ^ k - 1)
        ≤ B * roundFactor ^ k * (roundFactor ^ k - 1) := by
      apply mul_le_mul_of_nonneg_right _ hd
      exact mul_le_mul_of_nonneg_right hB (le_trans zero_le_one hr)
    have s4 : B * roundFactor ^ k * (roundFactor ^ k - 1)
        = B * (roundFactor ^ k * (roundFactor ^ k - 1)) := by ring
    linarith
  rw [abs_le]
  constructor <;> linarith

/-- Six roundings move a value of at most `2 ^ 48` by less than a fifth. -/
theorem six_roundings_small :
    (2 : ℚ) ^ 48 * (roundFactor ^ 6 * (roundFactor ^ 6 - 1)) < 1 / 5 := by
  unfold roundFactor
  norm_num

theorem roundFactor_sq_le : roundFactor ^ 2 ≤ (4 : ℚ) := by
  unfold roundFactor
  norm_num

/-- The rounded quotient and product of one fitting step stay within two roundings of the
exact value. -/
theorem two_roundings_close {fl : ℚ → ℚ} (hfl : RoundsWithin fl) (m d c : ℚ)
    (hm : 1 ≤ m) (hd : 0 < d) (hdD : d ≤ 2 ^ 50) (hc : 1 ≤ c) :
    Close 2 (fl (fl (m / d) * c)) (m / d * c) := by
  have hc0 : 0 < c := lt_of_lt_of_le one_pos hc
  have hq : (1 : ℚ) / 2 ^ 50 ≤ m / d := by
    rw [div_le_div_iff₀ (by positivity) hd]
    calc (1 : ℚ) * d ≤ 1 * 2 ^ 50 := by linarith
      _ ≤ m * 2 ^ 50 := mul_le_mul_of_nonneg_right hm (by positivity)
  have hlo1 : (1 : ℚ) / 2 ^ 1022 ≤ m / d := le_trans (by norm_num) hq
  have c1 := close_fl hfl hlo1
  have hfl1 := (hfl (m / d) hlo1).1
  have hlo2 : (1 : ℚ) / 2 ^ 1022 ≤ fl (m / d) * c := by
    have a1 : (1 : ℚ) / 2 ^ 50 * (1 - unitRoundoff) ≤ m / d * (1 - unitRoundoff) :=
      mul_le_mul_of_nonneg_right hq (by unfold unitRoundoff; norm_num)
    have a2 : (1 : ℚ) / 2 ^ 1022 ≤ 1 / 2 ^ 50 * (1 - unitRoundoff) := by
      unfold unitRoundoff; norm_num
    have a3 : fl (m / d) ≤ fl (m / d) * c := le_mul_of_one_le_right c1.1.le hc
    linarith
  have c2 := close_fl hfl hlo2
  have c3 := close_mul_right c1 hc0
  exact close_trans c2 c3 rfl

theorem fitWidthWith_close {fl : ℚ → ℚ} (hfl : RoundsWithin fl) (W H : ℚ)
    (hW : 1 ≤ W) (hWB : W ≤ 2 ^ 48) (hH : 1 ≤ H) (mw : Option ℚ)
    (hmw : ∀ m, mw = some m → 1 ≤ m) :
    (fitWidthWith fl W H mw).1 = (fitWidth W H mw).1 ∧
    Close 2 (fitWidthWith fl W H mw).2 (fitWidth W H mw).2 := by
  have hH0 : 0 < H := lt_of_lt_of_le one_pos hH
  have hW0 : 0 < W := lt_of_lt_of_le one_pos hW
  unfold fitWidthWith fitWidth
  by_cases hc : truthy mw = true ∧ W > numberOf mw
  · rw [if_pos hc, if_pos hc]
    refine ⟨rfl, ?_⟩
    cases mw with
    | none => simp [truthy] at hc
    | some m =>
      have hm := hmw m rfl
      simp only [numberOf]
      exact two_roundings_close hfl m W H hm hW0 (le_trans hWB (by norm_num)) hH
  · rw [if_neg hc, if_neg hc]
    exact ⟨rfl, close_refl 2 hH0⟩

theorem fitHeightWith_close {fl : ℚ → ℚ} (hfl : RoundsWithin fl) (w h H1 : ℚ)
    (hw : 1 ≤ w) (hc : Close 2 h H1) (hH1 : H1 ≤ 2 ^ 48) (mh : Option ℚ)
    (hmh : ∀ m, mh = some m → 1 ≤ m) :
    Close 6 (fitHeightWith fl w h mh).1 (fitHeight w H1 mh).1 ∧
    Close 6 (fitHeightWith fl w h mh).2 (fitHeight w H1 mh).2 := by
  have hw0 : 0 < w := lt_of_lt_of_le one_pos hw
  obtain ⟨hh0, hH0, hhH, hHh⟩ := hc
  have hcl : Close 2 h H1 := ⟨hh0, hH0, hhH, hHh⟩
  have hr2 := one_le_roundFactor_pow 2
  cases mh with
  | none =>
    simp only [fitHeightWith, fitHeight, truthy, Bool.false_eq_true, false_and, if_false]
    exact ⟨close_refl 6 hw0, close_mono hcl (by norm_num)⟩
  | some m =>
    have hm := hmh m rfl
    have hm0 : 0 < m := lt_of_lt_of_le one_pos hm
    have hne : m ≠ 0 := ne_of_gt hm0
    have ht : truthy (some m) = true := by simpa [truthy] using hne
    simp only [fitHeightWith, fitHeight, ht, true_and, numberOf]
    have hhB : h ≤ 2 ^ 50 := by
      calc h ≤ H1 * roundFactor ^ 2 := hhH
        _ ≤ 2 ^ 48 * 4 := mul_le_mul hH1 roundFactor_sq_le (le_trans zero_le_one hr2)
            (by positivity)
        _ = 2 ^ 50 := by norm_num
    by_cases hf : h > m
    · have hx : Close 4 (fl (fl (m / h) * w)) (m / H1 * w) := by
        have c1 := two_roundings_close hfl m h w hm hh0 hhB hw
        have c2 : Close 2 (m / h * w) (m / H1 * w) :=
          close_mul_right (close_div_left hcl hm0) hw0
        exact close_trans c1 c2 rfl
      by_cases hF : H1 > m
      · rw [if_pos hf, if_pos hF]
        exact ⟨close_mono hx (by norm_num), close_refl 6 hm0⟩
      · rw [if_pos hf, if_neg hF]
        have hmH : Close 2 m H1 :=
          ⟨hm0, hH0, le_trans hf.le hhH,
            le_trans (not_lt.mp hF) (le_mul_of_one_le_right hm0.le hr2)⟩
        have c3 : Close 2 (m / H1 * w) (H1 / H1 * w) :=
          close_mul_right (by
            have := close_div_left (close_symm hmH) hH0
            have e1 : H1 / H1 = (1 : ℚ) := div_self (ne_of_gt hH0)
            obtain ⟨p1, p2, p3, p4⟩ := hmH
            refine ⟨div_pos hm0 hH0, div_pos hH0 hH0, ?_, ?_⟩
            · rw [div_le_iff₀ hH0]
              calc m ≤ H1 * roundFactor ^ 2 := p3
                _ = H1 / H1 * roundFactor ^ 2 * H1 := by rw [e1]; ring
            · rw [div_le_iff₀ hH0]
              calc H1 ≤ m * roundFactor ^ 2 := p4
                _ = m / H1 * roundFactor ^ 2 * H1 := by field_simp) hw0
        have e1 : H1 / H1 * w = w := by rw [div_self (ne_of_gt hH0), one_mul]
        rw [e1] at c3
        exact ⟨close_trans hx c3 rfl, close_mono hmH (by norm_num)⟩
    · have hle : h ≤ m := not_lt.mp hf
      by_cases hF : H1 > m
      · rw [if_neg hf, if_pos hF]
        have hmh2 : Close 2 h m :=
          ⟨hh0, hm0, le_trans hle (le_mul_of_one_le_right hm0.le hr2), le_trans hF.le hHh⟩
        have hHm : H1 ≤ m * roundFactor ^ 2 :=
          le_trans hHh (mul_le_mul_of_nonneg_right hle (le_trans zero_le_one hr2))
        have cw : Close 2 w (m / H1 * w) := by
          refine ⟨hw0, mul_pos (div_pos hm0 hH0) hw0, ?_, ?_⟩
          · have : w * H1 ≤ w * (m * roundFactor ^ 2) := mul_le_mul_of_nonneg_left hHm hw0.le
            have e : m / H1 * w * roundFactor ^ 2 = w * (m * roundFactor ^ 2) / H1 := by ring
            rw [e, le_div_iff₀ hH0]
            exact this
          · have : m / H1 ≤ 1 := (div_le_one hH0).mpr hF.le
            calc m / H1 * w ≤ 1 * w := mul_le_mul_of_nonneg_right this hw0.le
              _ = w := one_mul w
              _ ≤ w * roundFactor ^ 2 := le_mul_of_one_le_right hw0.le hr2
        exact ⟨close_mono cw (by norm_num), close_mono hmh2 (by norm_num)⟩
      · rw [if_neg hf, if_neg hF]
        exact ⟨close_refl 6 hw0, close_mono hcl (by norm_num)⟩

theorem fitWidth_fst_ge_one (W H : ℚ) (hW : 1 ≤ W) (mw : Option ℚ)
    (hmw : ∀ m, mw = some m → 1 ≤ m) : 1 ≤ (fitWidth W H mw).1 := by
  unfold fitWidth
  split_ifs with hc
  · cases mw with
    | none => simp [truthy] at hc
    | some m => exact hmw m rfl
  · exact hW

theorem axisScale_le_one (e : ℚ) (mx : Option ℚ) : axisScale e mx ≤ 1 := by
  cases mx with
  | none => exact le_refl 1
  | some m => exact min_le_left _ _

/-- Before the final `Math.round`, the rounded computation stays within a fifth of the exact
uniform scaling, for original sizes up to `2 ^ 48`. -/
theorem scaledWith_close {fl : ℚ → ℚ} (hfl : RoundsWithin fl) (W H : ℚ)
    (hW : 1 ≤ W) (hWB : W ≤ 2 ^ 48) (hH : 1 ≤ H) (hHB : H ≤ 2 ^ 48) (mw mh : Option ℚ)
    (hmw : ∀ m, mw = some m → 1 ≤ m) (hmh : ∀ m, mh = some m → 1 ≤ m) :
    |(scaledWith fl W H mw mh).1 - fitScale W H mw mh * W| < 1 / 5 ∧
    |(scaledWith fl W H mw mh).2 - fitScale W H mw mh * H| < 1 / 5 := by
  have hW0 : 0 < W := lt_of_lt_of_le one_pos hW
  have hH0 : 0 < H := lt_of_lt_of_le one_pos hH
  have hmw0 : ∀ m, mw = some m → 0 < m := fun m h => lt_of_lt_of_le one_pos (hmw m h)
  have hmh0 : ∀ m, mh = some m → 0 < m := fun m h => lt_of_lt_of_le one_pos (hmh m h)
  obtain ⟨e1, c1⟩ := fitWidthWith_close hfl W H hW hWB hH mw hmw
  have hw1 := fitWidth_fst_ge_one W H hW mw hmw
  have hH1 : (fitWidth W H mw).2 ≤ 2 ^ 48 := by
    rw [fitWidth_eq W H hW0 mw hmw0]
    calc axisScale W mw * H ≤ 1 * H :=
          mul_le_mul_of_nonneg_right (axisScale_le_one W mw) hH0.le
      _ ≤ 2 ^ 48 := by rw [one_mul]; exact hHB
  obtain ⟨c2, c3⟩ := fitHeightWith_close hfl (fitWidth W H mw).1 (fitWidthWith fl W H mw).2
    (fitWidth W H mw).2 hw1 c1 hH1 mh hmh
  have hs := fit_steps_eq W H hW0 hH0 mw mh hmw0 hmh0
  have hs1 := fitScale_le_one W H mw mh
  have hs0 := fitScale_pos W H hW0 hH0 mw mh hmw0 hmh0
  rw [hs] at c2 c3
  have hsc : scaledWith fl W H mw mh
      = fitHeightWith fl (fitWidth W H mw).1 (fitWidthWith fl W H mw).2 mh := by
    unfold scaledWith
    rw [e1]
  rw [hsc]
  have bW : fitScale W H mw mh * W ≤ 2 ^ 48 := by
    calc fitScale W H mw mh * W ≤ 1 * W := mul_le_mul_of_nonneg_right hs1 hW0.le
      _ ≤ 2 ^ 48 := by rw [one_mul]; exact hWB
  have bH : fitScale W H mw mh * H ≤ 2 ^ 48 := by
    calc fitScale W H mw mh * H ≤ 1 * H := mul_le_mul_of_nonneg_right hs1 hH0.le
      _ ≤ 2 ^ 48 := by rw [one_mul]; exact hHB
  exact ⟨lt_of_le_of_lt (close_abs_sub_le c2 bW) six_roundings_small,
    lt_of_le_of_lt (close_abs_sub_le c3 bH) six_roundings_small⟩

theorem mathRound_sub_le_one {x y : ℚ} (h : |x - y| < 1) :
    |mathRound x - mathRound y| ≤ 1 := by
  rw [abs_lt] at h
  unfold mathRound
  have a1 := Int.floor_le (x + 1 / 2)
  have a2 := Int.lt_floor_add_one (x + 1 / 2)
  have b1 := Int.floor_le (y + 1 / 2)
  have b2 := Int.lt_floor_add_one (y + 1 / 2)
  have h1 : (⌊x + 1 / 2⌋ : ℚ) < (⌊y + 1 / 2⌋ : ℚ) + 2 := by linarith
  have h2 : (⌊y + 1 / 2⌋ : ℚ) < (⌊x + 1 / 2⌋ : ℚ) + 2 := by linarith
  have h1z : ⌊x + 1 / 2⌋ < ⌊y + 1 / 2⌋ + 2 := by exact_mod_cast h1
  have h2z : ⌊y + 1 / 2⌋ < ⌊x + 1 / 2⌋ + 2 := by exact_mod_cast h2
  rw [abs_le]
  constructor <;> omega

/-- With any rounding that keeps non-negative values non-negative, both values before the
final `Math.round` are non-negative and one of them is at least `1`. -/
theorem scaledWith_nonneg (fl : ℚ → ℚ) (hfl : ∀ x, 0 ≤ x → 0 ≤ fl x) (W H : ℚ)
    (hW : 1 ≤ W) (hH : 0 < H) (mw mh : Option ℚ)
    (hmw : ∀ m, mw = some m → 1 ≤ m) (hmh : ∀ m, mh = some m → 1 ≤ m) :
    0 ≤ (scaledWith fl W H mw mh).1 ∧ 0 ≤ (scaledWith fl W H mw mh).2 ∧
    (1 ≤ (scaledWith fl W H mw mh).1 ∨ 1 ≤ (scaledWith fl W H mw mh).2) := by
  have hW0 : 0 < W := lt_of_lt_of_le one_pos hW
  have hnum : ∀ mx : Option ℚ, (∀ m, mx = some m → 1 ≤ m) → truthy mx = true →
      1 ≤ numberOf mx := by
    intro mx hmx ht
    cases mx with
    | none => simp [truthy] at ht
    | some m => exact hmx m rfl
  have step1 : 1 ≤ (fitWidthWith fl W H mw).1 ∧ 0 ≤ (fitWidthWith fl W H mw).2 := by
    unfold fitWidthWith
    split_ifs with hc
    · have hm := hnum mw hmw hc.1
      refine ⟨hm, hfl _ (mul_nonneg (hfl _ (div_nonneg ?_ hW0.le)) hH.le)⟩
      linarith
    · exact ⟨hW, hH.le⟩
  obtain ⟨s1, s2⟩ := step1
  unfold scaledWith fitHeightWith
  split_ifs with hc
  · have hm := hnum mh hmh hc.1
    have h2 : 0 ≤ (fitWidthWith fl W H mw).2 := s2
    refine ⟨hfl _ (mul_nonneg (hfl _ (div_nonneg ?_ h2)) ?_), ?_, Or.inr hm⟩
    · linarith
    · linarith
    · show 0 ≤ numberOf mh
      linarith
  · exact ⟨by linarith, s2, Or.inl s1⟩

theorem calculateDimensionsWith_id (W H : ℚ) (mw mh : Option ℚ) :
    calculateDimensionsWith (fun x => x) W H mw mh = calculateDimensions W H mw mh := rfl

theorem toSetting_ge_one (m : Option ℕ) (hm : ValidMax m) :
    ∀ q, toSetting m = some q → 1 ≤ q := by
  intro q hq
  cases m with
  | none => simp [toSetting] at hq
  | some n =>
    have hn : (1 : ℚ) ≤ (n : ℚ) := by exact_mod_cast hm
    simp [toSetting] at hq
    rw [← hq]
    exact hn

/-- With any rounding that keeps non-negative values non-negative, both returned components
are `≥ 0` and one of them is `≥ 1`. -/
theorem calculateDimensionsWith_nonneg (fl : ℚ → ℚ) (hfl : ∀ x, 0 ≤ x → 0 ≤ fl x)
    (W H : ℤ) (hW : 0 < W) (hH : 0 < H) (mw mh : Option ℕ)
    (hmw : ValidMax mw) (hmh : ValidMax mh) :
    0 ≤ (calculateDimensionsWith fl W H (toSetting mw) (toSetting mh)).width ∧
    0 ≤ (calculateDimensionsWith fl W H (toSetting mw) (toSetting mh)).height ∧
    (1 ≤ (calculateDimensionsWith fl W H (toSetting mw) (toSetting mh)).width ∨
     1 ≤ (calculateDimensionsWith fl W H (toSetting mw) (toSetting mh)).height) := by
  have hWq : (1 : ℚ) ≤ (W : ℚ) := by exact_mod_cast hW
  have hHq := intCast_pos_rat hH
  obtain ⟨a, b, c⟩ := scaledWith_nonneg fl hfl W H hWq hHq _ _
    (toSetting_ge_one mw hmw) (toSetting_ge_one mh hmh)
  simp only [calculateDimensionsWith, one_le_mathRound_iff]
  refine ⟨mathRound_nonneg a, mathRound_nonneg b, ?_⟩
  rcases c with c | c
  · left; linarith
  · right; linarith

/-! ### Double roundings at concrete inputs -/

theorem roundToDouble_third :
    roundToDouble (1 / 3) = 6004799503160661 / 18014398509481984 := by
  rw [roundToDouble_eq (1 / 3) (-2) 6004799503160661 (by norm_num [abs_of_pos])
    (by norm_num [abs_of_pos]) (by norm_num) (by norm_num) (by norm_num)]
  norm_num

theorem roundToDouble_third_mul_one :
    roundToDouble (6004799503160661 / 18014398509481984 * 1)
      = 6004799503160661 / 18014398509481984 := by
  rw [roundToDouble_eq _ (-2) 6004799503160661 (by norm_num [abs_of_pos])
    (by norm_num [abs_of_pos]) (by norm_num) (by norm_num) (by norm_num)]
  norm_num

theorem roundToDouble_1150_4000 :
    roundToDouble (1150 / 4000) = 2589569785738035 / 9007199254740992 := by
  rw [roundToDouble_eq (1150 / 4000) (-2) 5179139571476070 (by norm_num [abs_of_pos])
    (by norm_num [abs_of_pos]) (by norm_num) (by norm_num) (by norm_num)]
  norm_num

theorem roundToDouble_1150_4000_mul :
    roundToDouble (2589569785738035 / 9007199254740992 * 3000)
      = 7586630231654399 / 8796093022208 := by
  rw [roundToDouble_eq _ 9 7586630231654399 (by norm_num [abs_of_pos])
    (by norm_num [abs_of_pos]) (by norm_num) (by norm_num) (by norm_num)]
  norm_num

theorem roundToDouble_half : roundToDouble (1 / 2) = 1 / 2 := by
  rw [roundToDouble_eq (1 / 2) (-1) 4503599627370496 (by norm_num [abs_of_pos])
    (by norm_num [abs_of_pos]) (by norm_num) (by norm_num) (by norm_num)]
  norm_num

theorem roundToDouble_half_mul : roundToDouble (1 / 2 * 11) = 11 / 2 := by
  rw [roundToDouble_eq _ 2 6192449487634432 (by norm_num [abs_of_pos])
    (by norm_num [abs_of_pos]) (by norm_num) (by norm_num) (by norm_num)]
  norm_num

theorem roundToDouble_9_11 :
    roundToDouble (9 / 11) = 7369526662969903 / 9007199254740992 := by
  rw [roundToDouble_eq (9 / 11) (-1) 7369526662969903 (by norm_num [abs_of_pos])
    (by norm_num [abs_of_pos]) (by norm_num) (by norm_num) (by norm_num)]
  norm_num

theorem roundToDouble_9_11_mul :
    roundToDouble (7369526662969903 / 9007199254740992 * 2)
      = 7369526662969903 / 4503599627370496 := by
  rw [roundToDouble_eq _ 0 7369526662969903 (by norm_num [abs_of_pos])
    (by norm_num [abs_of_pos]) (by norm_num) (by norm_num) (by norm_num)]
  norm_num

theorem roundToDouble_inv :
    roundToDouble (1 / (7369526662969903 / 4503599627370496))
      = 5504399544563939 / 9007199254740992 := by
  rw [roundToDouble_eq _ (-1) 5504399544563939 (by norm_num [abs_of_pos])
    (by norm_num [abs_of_pos]) (by norm_num) (by norm_num) (by norm_num)]
  norm_num

theorem roundToDouble_inv_mul :
    roundToDouble (5504399544563939 / 9007199254740992 * 9)
      = 6192449487634431 / 1125899906842624 := by
  rw [roundToDouble_eq _ 2 6192449487634431 (by norm_num [abs_of_pos])
    (by norm_num [abs_of_pos]) (by norm_num) (by norm_num) (by norm_num)]
  norm_num

theorem calculateDimensionsDouble_3_1 :
    calculateDimensionsDouble 3 1 (some 1) none = { width := 1, height := 0 } := by
  have e1 : fitWidthWith roundToDouble 3 1 (some 1)
      = (1, 6004799503160661 / 18014398509481984) := by
    unfold fitWidthWith
    rw [if_pos (by norm_num [truthy, numberOf])]
    simp only [numberOf]
    rw [roundToDouble_third, roundToDouble_third_mul_one]
  simp only [calculateDimensionsDouble, calculateDimensionsWith, scaledWith, e1, fitHeightWith,
    truthy, Bool.false_eq_true, false_and, if_false, mathRound]
  norm_num [Int.floor_eq_iff]

theorem calculateDimensionsDouble_4000_3000 :
    calculateDimensionsDouble 4000 3000 (some 1150) none
      = { width := 1150, height := 862 } := by
  have e1 : fitWidthWith roundToDouble 4000 3000 (some 1150)
      = (1150, 7586630231654399 / 8796093022208) := by
    unfold fitWidthWith
    rw [if_pos (by norm_num [truthy, numberOf])]
    simp only [numberOf]
    rw [roundToDouble_1150_4000, roundToDouble_1150_4000_mul]
  simp only [calculateDimensionsDouble, calculateDimensionsWith, scaledWith, e1, fitHeightWith,
    truthy, Bool.false_eq_true, false_and, if_false, mathRound]
  norm_num [Int.floor_eq_iff]

theorem calculateDimensionsDouble_2_11 :
    calculateDimensionsDouble 2 11 (some 1) (some 9) = { width := 1, height := 6 } := by
  have e1 : fitWidthWith roundToDouble 2 11 (some 1) = (1, 11 / 2) := by
    unfold fitWidthWith
    rw [if_pos (by norm_num [truthy, numberOf])]
    simp only [numberOf]
    rw [roundToDouble_half, roundToDouble_half_mul]
  have e2 : fitHeightWith roundToDouble 1 (11 / 2) (some 9) = (1, 11 / 2) := by
    unfold fitHeightWith
    rw [if_neg (by norm_num [truthy, numberOf])]
  simp only [calculateDimensionsDouble, calculateDimensionsWith, scaledWith, e1, e2, mathRound]
  norm_num [Int.floor_eq_iff]

theorem calculateDimensionsDouble_11_2 :
    calculateDimensionsDouble 11 2 (some 9) (some 1) = { width := 5, height := 1 } := by
  have e1 : fitWidthWith roundToDouble 11 2 (some 9)
      = (9, 7369526662969903 / 4503599627370496) := by
    unfold fitWidthWith
    rw [if_pos (by norm_num [truthy, numberOf])]
    simp only [numberOf]
    rw [roundToDouble_9_11, roundToDouble_9_11_mul]
  have e2 : fitHeightWith roundToDouble 9 (7369526662969903 / 4503599627370496) (some 1)
      = (6192449487634431 / 1125899906842624, 1) := by
    unfold fitHeightWith
    rw [if_pos (by norm_num [truthy, numberOf])]
    simp only [numberOf]
    rw [roundToDouble_inv, roundToDouble_inv_mul]
  simp only [calculateDimensionsDouble, calculateDimensionsWith, scaledWith, e1, e2, mathRound]
  norm_num [Int.floor_eq_iff]

theorem fitInsideBox_4000_3000 :
    fitInsideBox 4000 3000 (some 1150) none = { width := 1150, height := 863 } := by
  norm_num [fitInsideBox, fitScale, mathRound, Int.floor_eq_iff]

/-! ### Claims on `calculateDimensions` -/

/-- C1: for positive integer original sizes and settings that are unset or positive integers,
the returned width is at most `maxWidth` when that is set and the returned height is at most
`maxHeight` when that is set. -/
theorem C1_calculateDimensions_within_max (W H : ℤ) (hW : 0 < W) (hH : 0 < H)
    (mw mh : Option ℕ) (hmw : ValidMax mw) (hmh : ValidMax mh) :
    WithinMax (calculateDimensions W H (toSetting mw) (toSetting mh)).width mw ∧
    WithinMax (calculateDimensions W H (toSetting mw) (toSetting mh)).height mh := by
  have hWq := intCast_pos_rat hW
  have hHq := intCast_pos_rat hH
  rw [calculateDimensions_eq_fitInsideBox W H hWq hHq _ _
    (toSetting_pos mw hmw) (toSetting_pos mh hmh)]
  constructor
  · cases mw with
    | none => trivial
    | some m =>
      have h := fitScale_mul_le_maxWidth (W : ℚ) (H : ℚ) (m : ℚ) hWq (toSetting mh)
      have h2 := mathRound_mono h
      rw [mathRound_natCast] at h2
      simpa [fitInsideBox, toSetting, WithinMax] using h2
  · cases mh with
    | none => trivial
    | some m =>
      have h := fitScale_mul_le_maxHeight (W : ℚ) (H : ℚ) (m : ℚ) hHq (toSetting mw)
      have h2 := mathRound_mono h
      rw [mathRound_natCast] at h2
      simpa [fitInsideBox, toSetting, WithinMax] using h2

/-- C1 at the spec's example: 4000 x 2000 with `maxWidth = 1000`, `maxHeight = 400`. -/
theorem C1_calculateDimensions_within_max_witness :
    WithinMax (calculateDimensions ((4000 : ℤ) : ℚ) ((2000 : ℤ) : ℚ)
        (toSetting (some 1000)) (toSetting (some 400))).width (some 1000) ∧
    WithinMax (calculateDimensions ((4000 : ℤ) : ℚ) ((2000 : ℤ) : ℚ)
        (toSetting (some 1000)) (toSetting (some 400))).height (some 400) :=
  C1_calculateDimensions_within_max 4000 2000 (by decide) (by decide)
    (some 1000) (some 400) (by decide) (by decide)

/-- C2 fails as stated: a 3 x 1 image with `maxWidth = 1` is given height `0`, in exact
arithmetic and in double precision alike. -/
theorem C2_counterexample :
    (0 : ℤ) < 3 ∧ (0 : ℤ) < 1 ∧ ValidMax (some 1) ∧ ValidMax none ∧
    calculateDimensions ((3 : ℤ) : ℚ) ((1 : ℤ) : ℚ) (toSetting (some 1)) (toSetting none)
      = { width := 1, height := 0 } ∧
    ¬ (1 ≤ (calculateDimensions ((3 : ℤ) : ℚ) ((1 : ℤ) : ℚ)
        (toSetting (some 1)) (toSetting none)).height) ∧
    calculateDimensionsDouble ((3 : ℤ) : ℚ) ((1 : ℤ) : ℚ) (toSetting (some 1)) (toSetting none)
      = { width := 1, height := 0 } := by
  have e : calculateDimensions ((3 : ℤ) : ℚ) ((1 : ℤ) : ℚ) (toSetting (some 1))
      (toSetting none) = { width := 1, height := 0 } := by
    norm_num [calculateDimensions, fitWidth, fitHeight, truthy, numberOf, mathRound,
      toSetting, Int.floor_eq_iff]
  have d : calculateDimensionsDouble ((3 : ℤ) : ℚ) ((1 : ℤ) : ℚ) (toSetting (some 1))
      (toSetting none) = { width := 1, height := 0 } := by
    have := calculateDimensionsDouble_3_1
    simpa [toSetting] using this
  refine ⟨by decide, by decide, by decide, by decide, e, ?_, d⟩
  rw [e]
  decide

/-- C2, amended: for positive integer original sizes and settings that are unset or positive
integers, both returned components are integers `≥ 0` and at least one of them is `≥ 1`.
This holds for the computation in double precision and for the one in exact rationals. -/
theorem C2_calculateDimensions_components (W H : ℤ) (hW : 0 < W) (hH : 0 < H)
    (mw mh : Option ℕ) (hmw : ValidMax mw) (hmh : ValidMax mh) :
    (0 ≤ (calculateDimensionsDouble W H (toSetting mw) (toSetting mh)).width ∧
      0 ≤ (calculateDimensionsDouble W H (toSetting mw) (toSetting mh)).height ∧
      (1 ≤ (calculateDimensionsDouble W H (toSetting mw) (toSetting mh)).width ∨
       1 ≤ (calculateDimensionsDouble W H (toSetting mw) (toSetting mh)).height)) ∧
    (0 ≤ (calculateDimensions W H (toSetting mw) (toSetting mh)).width ∧
      0 ≤ (calculateDimensions W H (toSetting mw) (toSetting mh)).height ∧
      (1 ≤ (calculateDimensions W H (toSetting mw) (toSetting mh)).width ∨
       1 ≤ (calculateDimensions W H (toSetting mw) (toSetting mh)).height)) := by
  constructor
  · exact calculateDimensionsWith_nonneg roundToDouble roundToDouble_nonneg W H hW hH mw mh
      hmw hmh
  · have := calculateDimensionsWith_nonneg (fun x => x) (fun _ hx => hx) W H hW hH mw mh
      hmw hmh
    rw [calculateDimensionsWith_id] at this
    exact this

/-- C2 (amended) at a 3 x 1 image with `maxWidth = 1`. -/
theorem C2_calculateDimensions_components_witness :
    (0 ≤ (calculateDimensionsDouble ((3 : ℤ) : ℚ) ((1 : ℤ) : ℚ)
        (toSetting (some 1)) (toSetting none)).width ∧
      0 ≤ (calculateDimensionsDouble ((3 : ℤ) : ℚ) ((1 : ℤ) : ℚ)
        (toSetting (some 1)) (toSetting none)).height ∧
      (1 ≤ (calculateDimensionsDouble ((3 : ℤ) : ℚ) ((1 : ℤ) : ℚ)
        (toSetting (some 1)) (toSetting none)).width ∨
       1 ≤ (calculateDimensionsDouble ((3 : ℤ) : ℚ) ((1 : ℤ) : ℚ)
        (toSetting (some 1)) (toSetting none)).height)) ∧
    (0 ≤ (calculateDimensions ((3 : ℤ) : ℚ) ((1 : ℤ) : ℚ)
        (toSetting (some 1)) (toSetting none)).width ∧
      0 ≤ (calculateDimensions ((3 : ℤ) : ℚ) ((1 : ℤ) : ℚ)
        (toSetting (some 1)) (toSetting none)).height ∧
      (1 ≤ (calculateDimensions ((3 : ℤ) : ℚ) ((1 : ℤ) : ℚ)
        (toSetting (some 1)) (toSetting none)).width ∨
       1 ≤ (calculateDimensions ((3 : ℤ) : ℚ) ((1 : ℤ) : ℚ)
        (toSetting (some 1)) (toSetting none)).height)) :=
  C2_calculateDimensions_components 3 1 (by decide) (by decide) (some 1) none
    (by decide) (by decide)


/-- C7: for positive integer original sizes and settings that are unset or positive integers
there is one scale factor `s`, `0 < s ≤ 1`, with the returned width within 1 of
`s * originalWidth` and the returned height within 1 of `s * originalHeight`. -/
theorem C7_calculateDimensions_aspect_ratio (W H : ℤ) (hW : 0 < W) (hH : 0 < H)
    (mw mh : Option ℕ) (hmw : ValidMax mw) (hmh : ValidMax mh) :
    ∃ s : ℚ, 0 < s ∧ s ≤ 1 ∧
      |((calculateDimensions W H (toSetting mw) (toSetting mh)).width : ℚ) - s * W| ≤ 1 ∧
      |((calculateDimensions W H (toSetting mw) (toSetting mh)).height : ℚ) - s * H| ≤ 1 := by
  have hWq := intCast_pos_rat hW
  have hHq := intCast_pos_rat hH
  refine ⟨fitScale W H (toSetting mw) (toSetting mh),
    fitScale_pos (W : ℚ) (H : ℚ) hWq hHq _ _ (toSetting_pos mw hmw) (toSetting_pos mh hmh),
    fitScale_le_one _ _ _ _, ?_, ?_⟩
  · rw [calculateDimensions_eq_fitInsideBox W H hWq hHq _ _
      (toSetting_pos mw hmw) (toSetting_pos mh hmh)]
    have := mathRound_sub_le (fitScale W H (toSetting mw) (toSetting mh) * W)
    simp only [fitInsideBox]
    linarith
  · rw [calculateDimensions_eq_fitInsideBox W H hWq hHq _ _
      (toSetting_pos mw hmw) (toSetting_pos mh hmh)]
    have := mathRound_sub_le (fitScale W H (toSetting mw) (toSetting mh) * H)
    simp only [fitInsideBox]
    linarith

/-- C7 at a 5 x 3 image with both limits set to 2. -/
theorem C7_calculateDimensions_aspect_ratio_witness :
    ∃ s : ℚ, 0 < s ∧ s ≤ 1 ∧
      |((calculateDimensions ((5 : ℤ) : ℚ) ((3 : ℤ) : ℚ)
          (toSetting (some 2)) (toSetting (some 2))).width : ℚ) - s * ((5 : ℤ) : ℚ)| ≤ 1 ∧
      |((calculateDimensions ((5 : ℤ) : ℚ) ((3 : ℤ) : ℚ)
          (toSetting (some 2)) (toSetting (some 2))).height : ℚ) - s * ((3 : ℤ) : ℚ)| ≤ 1 :=
  C7_calculateDimensions_aspect_ratio 5 3 (by decide) (by decide) (some 2) (some 2)
    (by decide) (by decide)

/-- C8: for positive integer original sizes, with `maxWidth` and `maxHeight` both unset
(`null`) the function returns exactly the original width and height. -/
theorem C8_calculateDimensions_unconstrained (W H : ℤ) (hW : 0 < W) (hH : 0 < H) :
    calculateDimensions W H none none = { width := W, height := H } := by
  have _hW := hW
  have _hH := hH
  simp [calculateDimensions, fitWidth, fitHeight, truthy, mathRound_intCast]

/-- C8 at a 4000 x 2000 image. -/
theorem C8_calculateDimensions_unconstrained_witness :
    calculateDimensions ((4000 : ℤ) : ℚ) ((2000 : ℤ) : ℚ) none none
      = { width := 4000, height := 2000 } :=
  C8_calculateDimensions_unconstrained 4000 2000 (by decide) (by decide)

/-- C10 fails as stated on the double-precision computation the code performs.
At `(4000, 3000, maxWidth 1150, unset)` the scale is `s = 23/80` and `round (s * 3000)` is
`863`, while the code returns height `862`. At `(2, 11, 1, 9)` the code returns `(1, 6)`, while
on the swapped input `(11, 2, 9, 1)` it returns `(5, 1)`, not `(6, 1)`. -/
theorem C10_counterexample :
    calculateDimensionsDouble 4000 3000 (some 1150) none = { width := 1150, height := 862 } ∧
    fitInsideBox 4000 3000 (some 1150) none = { width := 1150, height := 863 } ∧
    calculateDimensionsDouble 2 11 (some 1) (some 9) = { width := 1, height := 6 } ∧
    calculateDimensionsDouble 11 2 (some 9) (some 1) = { width := 5, height := 1 } ∧
    ¬ (calculateDimensionsDouble 2 11 (some 1) (some 9) = { width := 1, height := 6 } ↔
       calculateDimensionsDouble 11 2 (some 9) (some 1) = { width := 6, height := 1 }) := by
  refine ⟨calculateDimensionsDouble_4000_3000, fitInsideBox_4000_3000,
    calculateDimensionsDouble_2_11, calculateDimensionsDouble_11_2, ?_⟩
  rw [calculateDimensionsDouble_2_11, calculateDimensionsDouble_11_2]
  decide

/-- C10, amended: for positive integer original sizes and settings that are unset or positive
integers, with all arithmetic exact `calculateDimensions` is the uniform fit-inside-box scaling
`(round (s*w), round (s*h))`, `s` the minimum of `1`, `maxWidth/w` (if set) and `maxHeight/h`
(if set), and returns `(a, b)` on `(w, h, maxWidth, maxHeight)` exactly when it returns
`(b, a)` on `(h, w, maxHeight, maxWidth)`. In the double precision of the code, for `w` and `h`
up to `2 ^ 48`, each returned component is within 1 of `round (s*w)` resp. `round (s*h)`, and
the results on `(w, h, maxWidth, maxHeight)` and on `(h, w, maxHeight, maxWidth)` are within 1
of each other's transpose. -/
theorem C10_calculateDimensions_fit_inside_box (w h : ℤ) (hw : 0 < w) (hh : 0 < h)
    (mw mh : Option ℕ) (hmw : ValidMax mw) (hmh : ValidMax mh) :
    (calculateDimensions w h (toSetting mw) (toSetting mh)
        = fitInsideBox w h (toSetting mw) (toSetting mh) ∧
      ∀ a b : ℤ,
        calculateDimensions w h (toSetting mw) (toSetting mh) = { width := a, height := b } ↔
        calculateDimensions h w (toSetting mh) (toSetting mw) = { width := b, height := a }) ∧
    (w ≤ 2 ^ 48 → h ≤ 2 ^ 48 →
      |(calculateDimensionsDouble w h (toSetting mw) (toSetting mh)).width
          - (fitInsideBox w h (toSetting mw) (toSetting mh)).width| ≤ 1 ∧
      |(calculateDimensionsDouble w h (toSetting mw) (toSetting mh)).height
          - (fitInsideBox w h (toSetting mw) (toSetting mh)).height| ≤ 1 ∧
      |(calculateDimensionsDouble w h (toSetting mw) (toSetting mh)).width
          - (calculateDimensionsDouble h w (toSetting mh) (toSetting mw)).height| ≤ 1 ∧
      |(calculateDimensionsDouble w h (toSetting mw) (toSetting mh)).height
          - (calculateDimensionsDouble h w (toSetting mh) (toSetting mw)).width| ≤ 1) := by
  have hwq := intCast_pos_rat hw
  have hhq := intCast_pos_rat hh
  have e1 := calculateDimensions_eq_fitInsideBox w h hwq hhq _ _
    (toSetting_pos mw hmw) (toSetting_pos mh hmh)
  have e2 := calculateDimensions_eq_fitInsideBox h w hhq hwq _ _
    (toSetting_pos mh hmh) (toSetting_pos mw hmw)
  refine ⟨⟨e1, ?_⟩, ?_⟩
  · intro a b
    rw [e1, e2]
    simp only [fitInsideBox, fitScale_swap (h : ℚ) (w : ℚ), Dimensions.mk.injEq]
    exact and_comm
  · intro hwB hhB
    have hw1 : (1 : ℚ) ≤ (w : ℚ) := by exact_mod_cast hw
    have hh1 : (1 : ℚ) ≤ (h : ℚ) := by exact_mod_cast hh
    have hwB2 : (w : ℚ) ≤ 2 ^ 48 := by exact_mod_cast hwB
    have hhB2 : (h : ℚ) ≤ 2 ^ 48 := by exact_mod_cast hhB
    obtain ⟨p1, p2⟩ := scaledWith_close roundToDouble_roundsWithin (w : ℚ) (h : ℚ)
      hw1 hwB2 hh1 hhB2 _ _ (toSetting_ge_one mw hmw) (toSetting_ge_one mh hmh)
    obtain ⟨q1, q2⟩ := scaledWith_close roundToDouble_roundsWithin (h : ℚ) (w : ℚ)
      hh1 hhB2 hw1 hwB2 _ _ (toSetting_ge_one mh hmh) (toSetting_ge_one mw hmw)
    rw [fitScale_swap (h : ℚ) (w : ℚ)] at q1 q2
    simp only [calculateDimensionsDouble, calculateDimensionsWith, fitInsideBox]
    rw [abs_lt] at p1 p2 q1 q2
    refine ⟨mathRound_sub_le_one ?_, mathRound_sub_le_one ?_, mathRound_sub_le_one ?_,
      mathRound_sub_le_one ?_⟩ <;> rw [abs_lt] <;> constructor <;> linarith

/-- C10 (amended) at the two inputs on which the claim as stated fails. -/
theorem C10_calculateDimensions_fit_inside_box_witness :
    |(calculateDimensionsDouble ((4000 : ℤ) : ℚ) ((3000 : ℤ) : ℚ)
          (toSetting (some 1150)) (toSetting none)).height
        - (fitInsideBox ((4000 : ℤ) : ℚ) ((3000 : ℤ) : ℚ)
          (toSetting (some 1150)) (toSetting none)).height| ≤ 1 ∧
    |(calculateDimensionsDouble ((2 : ℤ) : ℚ) ((11 : ℤ) : ℚ)
          (toSetting (some 1)) (toSetting (some 9))).height
        - (calculateDimensionsDouble ((11 : ℤ) : ℚ) ((2 : ℤ) : ℚ)
          (toSetting (some 9)) (toSetting (some 1))).width| ≤ 1 :=
  ⟨((C10_calculateDimensions_fit_inside_box 4000 3000 (by decide) (by decide)
      (some 1150) none (by decide) (by decide)).2 (by norm_num) (by norm_num)).2.1,
   ((C10_calculateDimensions_fit_inside_box 2 11 (by decide) (by decide)
      (some 1) (some 9) (by decide) (by decide)).2 (by norm_num) (by norm_num)).2.2.2⟩

/-! ### File names -/

theorem afterLastDot_eq_none_iff (cs : List Char) : afterLastDot cs = none ↔ '.' ∉ cs := by
  induction cs with
  | nil => simp [afterLastDot]
  | cons c t ih =>
    simp only [afterLastDot]
    cases h : afterLastDot t with
    | some suf =>
      have ht : ¬ ('.' ∉ t) := fun hn => by rw [ih.mpr hn] at h; cases h
      have ht2 : '.' ∈ t := not_not.mp ht
      simp [ht2]
    | none =>
      have ht : '.' ∉ t := ih.mp h
      by_cases hc : c = '.'
      · simp [hc]
      · simp only [if_neg hc, List.mem_cons, not_or, true_iff]
        exact ⟨fun e => hc e.symm, ht⟩

theorem beforeLastDot_eq_none_iff (cs : List Char) : beforeLastDot cs = none ↔ '.' ∉ cs := by
  induction cs with
  | nil => simp [beforeLastDot]
  | cons c t ih =>
    simp only [beforeLastDot]
    cases h : beforeLastDot t with
    | some pre =>
      have ht : ¬ ('.' ∉ t) := fun hn => by rw [ih.mpr hn] at h; cases h
      have ht2 : '.' ∈ t := not_not.mp ht
      simp [ht2]
    | none =>
      have ht : '.' ∉ t := ih.mp h
      by_cases hc : c = '.'
      · simp [hc]
      · simp only [if_neg hc, List.mem_cons, not_or, true_iff]
        exact ⟨fun e => hc e.symm, ht⟩

/-- The two helpers do split a name at its last `.`. -/
theorem lastDot_split (pre suf : List Char) (hsuf : '.' ∉ suf) :
    beforeLastDot (pre ++ '.' :: suf) = some pre ∧
    afterLastDot (pre ++ '.' :: suf) = some suf := by
  induction pre with
  | nil =>
    simp [beforeLastDot, afterLastDot, (beforeLastDot_eq_none_iff suf).mpr hsuf,
      (afterLastDot_eq_none_iff suf).mpr hsuf]
  | cons c t ih =>
    simp [beforeLastDot, afterLastDot, ih.1, ih.2]

theorem matchesExtension_of_mem_tail (c : Char) (t : List Char) (h : '.' ∈ t) :
    matchesExtension (c :: t) = false := by
  have : t.all (fun d => d != '/' && d != '.') = false := by
    rw [List.all_eq_false]
    exact ⟨'.', h, by simp⟩
  simp [matchesExtension, this]

theorem matchesExtension_of_ne (c : Char) (t : List Char) (h : c ≠ '.') :
    matchesExtension (c :: t) = false := by
  simp [matchesExtension, h]

theorem matchesExtension_dot (t : List Char) (h : '.' ∉ t) :
    matchesExtension ('.' :: t) = true ↔ (t ≠ [] ∧ '/' ∉ t) := by
  simp only [matchesExtension, beq_self_eq_true, Bool.true_and, Bool.and_eq_true,
    Bool.not_eq_true', List.isEmpty_eq_false, List.all_eq_true, bne_iff_ne, ne_eq]
  constructor
  · rintro ⟨h1, h2⟩
    exact ⟨h1, fun hm => (h2 '/' hm).1 rfl⟩
  · rintro ⟨h1, h2⟩
    refine ⟨h1, fun d hd => ⟨?_, ?_⟩⟩
    · intro e; exact h2 (e ▸ hd)
    · intro e; exact h (e ▸ hd)

theorem strippedBase_of_no_dot (cs : List Char) (h : '.' ∉ cs) : strippedBase cs = cs := by
  simp [strippedBase, (beforeLastDot_eq_none_iff cs).mpr h]

/-- The pattern replacement computes the stripped base. -/
theorem replaceExtension_eq_strippedBase (cs : List Char) :
    replaceExtension cs = strippedBase cs := by
  induction cs with
  | nil => simp [replaceExtension, strippedBase, beforeLastDot, afterLastDot]
  | cons c t ih =>
    by_cases ht : '.' ∈ t
    · obtain ⟨pre, hpre⟩ : ∃ pre, beforeLastDot t = some pre := by
        cases h : beforeLastDot t with
        | none => exact absurd ht ((beforeLastDot_eq_none_iff t).mp h)
        | some pre => exact ⟨pre, rfl⟩
      obtain ⟨suf, hsuf⟩ : ∃ suf, afterLastDot t = some suf := by
        cases h : afterLastDot t with
        | none => exact absurd ht ((afterLastDot_eq_none_iff t).mp h)
        | some suf => exact ⟨suf, rfl⟩
      rw [replaceExtension, matchesExtension_of_mem_tail c t ht, ih]
      simp only [strippedBase, beforeLastDot, afterLastDot, hpre, hsuf]
      by_cases hc : suf ≠ [] ∧ '/' ∉ suf
      · simp [if_pos hc]
      · simp [if_neg hc]
    · have hb := (beforeLastDot_eq_none_iff t).mpr ht
      have ha := (afterLastDot_eq_none_iff t).mpr ht
      have iht : replaceExtension t = t := by rw [ih, strippedBase_of_no_dot t ht]
      by_cases hc : c = '.'
      · subst hc
        simp only [replaceExtension, strippedBase, beforeLastDot, afterLastDot, hb, ha,
          if_true]
        by_cases hm : t ≠ [] ∧ '/' ∉ t
        · rw [if_pos ((matchesExtension_dot t ht).mpr hm), if_pos hm]
        · have : matchesExtension ('.' :: t) ≠ true := fun e =>
            hm ((matchesExtension_dot t ht).mp e)
          rw [if_neg this, if_neg hm, iht]
      · rw [replaceExtension, matchesExtension_of_ne c t hc, iht]
        simp [strippedBase, beforeLastDot, hb, hc]

/-! ### Claims on the codec helpers -/

/-- C3 fails as stated: for the name `photo.` the code keeps the trailing `.` and returns
`photo..webp`, while the claimed value is `photo.webp`; for `a.b/c` the code returns
`a.b/c.webp`, while the claimed value is `a.webp`. -/
theorem C3_counterexample :
    getNewFileName "photo." "webp" = "photo..webp" ∧
    claimedFileName "photo." "webp" = "photo.webp" ∧
    getNewFileName "photo." "webp" ≠ claimedFileName "photo." "webp" ∧
    getNewFileName "a.b/c" "webp" = "a.b/c.webp" ∧
    claimedFileName "a.b/c" "webp" = "a.webp" := by
  decide

/-- C3, amended: for every original file name and every format string,
`getNewFileName originalName format` is `base ++ "." ++ format`, where `base` is the name with
its last `.` and everything after it removed when the text after that `.` is non-empty and
holds no `/`, and the whole name otherwise (no `.`, a trailing `.`, or a `/` after the last
`.`); `photo.JPG`, `webp` gives `photo.webp` and `noext`, `png` gives `noext.png`. -/
theorem C3_getNewFileName (originalName format : String) :
    getNewFileName originalName format
      = String.mk (strippedBase originalName.data) ++ "." ++ format ∧
    getNewFileName "photo.JPG" "webp" = "photo.webp" ∧
    getNewFileName "noext" "png" = "noext.png" := by
  refine ⟨?_, by decide, by decide⟩
  simp only [getNewFileName, replaceExtension_eq_strippedBase]

/-- Where the text after the last `.` is non-empty and free of `/`, the claimed base and the
computed base agree; so do they for a name without `.`. -/
theorem strippedBase_eq_claimedBase (pre suf : List Char)
    (h1 : '.' ∉ suf) (h2 : suf ≠ []) (h3 : '/' ∉ suf) :
    strippedBase (pre ++ '.' :: suf) = pre ∧ claimedBase (pre ++ '.' :: suf) = pre := by
  obtain ⟨hb, ha⟩ := lastDot_split pre suf h1
  simp [strippedBase, claimedBase, hb, ha, h2, h3]

/-- C6, the mapping of the three supported formats and of a format such as `bmp`, together
with the input on which the fallback is missed: `constructor` is found on the prototype chain
of the `mimeTypes` object, so the built-in function stored there is returned, not
`image/webp`. -/
theorem C6_getMimeType_inherited_key :
    getMimeType "webp" = JSValue.str "image/webp" ∧
    getMimeType "jpeg" = JSValue.str "image/jpeg" ∧
    getMimeType "png" = JSValue.str "image/png" ∧
    getMimeType "bmp" = JSValue.str "image/webp" ∧
    getMimeType "constructor" = JSValue.inherited "constructor" ∧
    getMimeType "constructor" ≠ getMimeType "webp" := by
  decide

/-- Away from the names found on the prototype chain the fallback works: every format that
is none of the three supported ones and no property name of `Object.prototype` is mapped to
`image/webp`. -/
theorem getMimeType_fallback (format : String)
    (h1 : format ≠ "webp") (h2 : format ≠ "jpeg") (h3 : format ≠ "png")
    (h4 : format ∉ objectPrototypeKeys) :
    getMimeType format = JSValue.str "image/webp" := by
  have hl : mimeTypes.lookup format = none := by
    have e1 : (format == "webp") = false := beq_eq_false_iff_ne.mpr h1
    have e2 : (format == "jpeg") = false := beq_eq_false_iff_ne.mpr h2
    have e3 : (format == "png") = false := beq_eq_false_iff_ne.mpr h3
    simp [mimeTypes, List.lookup, e1, e2, e3]
  simp [getMimeType, getProperty, hl, h4]

/-! ### Lists as JavaScript arrays -/

theorem getD_append_cons (pre : List (Option ImageRecord)) (x : Option ImageRecord)
    (post : List (Option ImageRecord)) :
    (pre ++ x :: post).getD pre.length none = x := by
  induction pre with
  | nil => simp
  | cons a t ih => simpa using ih

theorem set_append_cons (pre : List (Option ImageRecord)) (x y : Option ImageRecord)
    (post : List (Option ImageRecord)) :
    (pre ++ x :: post).set pre.length y = pre ++ y :: post := by
  induction pre with
  | nil => simp
  | cons a t ih => simp

theorem arrayAssign_append_cons (pre : List (Option ImageRecord)) (x : Option ImageRecord)
    (post : List (Option ImageRecord)) (y : ImageRecord) :
    arrayAssign (pre ++ x :: post) pre.length y = pre ++ some y :: post := by
  have hlt : pre.length < (pre ++ x :: post).length := by simp
  rw [arrayAssign, if_pos hlt, set_append_cons]

theorem mem_arrayAssign (xs : List (Option ImageRecord)) (i : ℕ) (y : ImageRecord) :
    some y ∈ arrayAssign xs i y := by
  unfold arrayAssign
  split_ifs with h
  · exact List.mem_iff_getElem.mpr ⟨i, by simpa using h, by simp⟩
  · simp

theorem settle_eq (st : State) (i : ℕ) (r : ImageRecord) (o : Option ProcessedResult)
    (pre post : List (Option ImageRecord)) (hi : pre.length = i)
    (himg : st.images = pre ++ some r :: post) :
    settle st i r o =
      { st with
        images := pre ++ some (outcomeRecord r o) :: post,
        processedImages := st.processedImages ++ (match o with | none => [] | some p => [p]) } := by
  subst hi
  cases o with
  | none => simp [settle, outcomeRecord, himg.symm]
  | some p => simp [settle, outcomeRecord, himg, arrayAssign_append_cons]

/-- The loop from index `i` over a hole-free rest `recs` of the array: with fuel for every
remaining record it finishes, leaves the outcome record at each position, appends the
successful results and calls the transcoder on each record once, in order. -/
theorem processLoop_eq (optimize : ℕ → ImageRecord → Option ProcessedResult)
    (recs : List ImageRecord) :
    ∀ (fuel i : ℕ) (pre : List (Option ImageRecord)) (ps : List ProcessedResult)
      (s : Settings) (calls : List (Option ImageRecord)),
      pre.length = i → recs.length ≤ fuel →
      processLoop optimize fuel i
          { images := pre ++ recs.map some, processedImages := ps, settings := s } calls
        = some ({ images := pre ++ settledImages optimize i recs,
                  processedImages := ps ++ successes optimize i recs,
                  settings := s }, calls ++ recs.map some) := by
  induction recs with
  | nil =>
    intro fuel i pre ps s calls hi _
    cases fuel <;> simp [processLoop, settledImages, successes, hi]
  | cons r rs ih =>
    intro fuel i pre ps s calls hi hfuel
    cases fuel with
    | zero => simp at hfuel
    | succ f =>
      have hf : rs.length ≤ f := by simpa using hfuel
      have hlt : i < (pre ++ (r :: rs).map some).length := by simp [hi]
      have hget : (pre ++ (r :: rs).map some).getD i none = some r := by
        rw [← hi]
        exact getD_append_cons pre (some r) (rs.map some)
      rw [processLoop]
      simp only [hlt, if_true, hget]
      rw [settle_eq _ i r (optimize i r) pre (rs.map some) hi (by simp)]
      have hpre : (pre ++ [some (outcomeRecord r (optimize i r))]).length = i + 1 := by
        simp [hi]
      have := ih f (i + 1) (pre ++ [some (outcomeRecord r (optimize i r))])
        (ps ++ (match optimize i r with | none => [] | some p => [p])) s
        (calls ++ [some r]) hpre hf
      simp only [List.append_assoc, List.singleton_append] at this
      rw [this]
      cases h : optimize i r <;> simp [settledImages, successes, h]

theorem settledImages_length (optimize : ℕ → ImageRecord → Option ProcessedResult)
    (recs : List ImageRecord) : ∀ i, (settledImages optimize i recs).length = recs.length := by
  induction recs with
  | nil => intro i; rfl
  | cons r rs ih => intro i; simp [settledImages, ih]

theorem settledImages_getElem? (optimize : ℕ → ImageRecord → Option ProcessedResult)
    (recs : List ImageRecord) :
    ∀ (i j : ℕ) (r : ImageRecord), recs[j]? = some r →
      (settledImages optimize i recs)[j]? = some (some (outcomeRecord r (optimize (i + j) r))) := by
  induction recs with
  | nil => intro i j r h; simp at h
  | cons x xs ih =>
    intro i j r h
    cases j with
    | zero =>
      simp only [List.getElem?_cons_zero, Option.some.injEq] at h
      subst h
      simp [settledImages]
    | succ k =>
      simp only [List.getElem?_cons_succ] at h
      have := ih (i + 1) k r h
      simp only [settledImages, List.getElem?_cons_succ]
      rw [this]
      congr 4
      omega

theorem records_map_some (recs : List ImageRecord) : records (recs.map some) = recs := by
  induction recs with
  | nil => rfl
  | cons r rs ih => simpa [records] using ih

theorem removeImage_images (id : String) (st : State) :
    (removeImage id st).state.images
      = ((records st.images).filter (fun r => r.id != id)).map some := by
  simp only [removeImage, records]
  induction st.images with
  | nil => rfl
  | cons x xs ih =>
    cases x with
    | none => simpa [List.filter_cons] using ih
    | some r =>
      by_cases h : r.id = id
      · simpa [List.filter_cons, h] using ih
      · simpa [List.filter_cons, h] using ih

/-! ### Claims on the batch run and the registry -/

/-- C4: for every list of records in `state.images` and every assignment of transcode
outcomes, `processImages` (given fuel for every record) finishes; it has called the transcoder
on every record once, in list order; each position whose transcode succeeded holds the record
with that result attached (`processed` set, `isProcessed` true) and each position whose
transcode failed holds the record exactly as before the run. -/
theorem C4_processImages_partial_failure
    (optimize : ℕ → ImageRecord → Option ProcessedResult)
    (recs : List ImageRecord) (st : State) (fuel : ℕ)
    (hst : st.images = recs.map some) (hfuel : recs.length ≤ fuel) :
    (∃ final, processImages optimize fuel st = some (final, recs.map some) ∧
      final.images.length = recs.length ∧
      final.settings = st.settings ∧
      (recs ≠ [] → final.processedImages = successes optimize 0 recs) ∧
      ∀ (i : ℕ) (r : ImageRecord), recs[i]? = some r →
        (∀ processed, optimize i r = some processed →
          final.images[i]? = some (some
            { r with processed := some processed, isProcessed := true })) ∧
        (optimize i r = none → final.images[i]? = some (some r))) := by
  cases hrecs : recs with
  | nil =>
    subst hrecs
    refine ⟨st, ?_, ?_, rfl, fun h => absurd rfl h, ?_⟩
    · simp [processImages, hst]
    · simp [hst]
    · intro i r h
      simp at h
  | cons x xs =>
    rw [← hrecs]
    have hne : st.images.length ≠ 0 := by simp [hst, hrecs]
    have hloop := processLoop_eq optimize recs fuel 0 [] [] st.settings [] rfl hfuel
    simp only [List.nil_append] at hloop
    refine ⟨{ images := settledImages optimize 0 recs,
              processedImages := successes optimize 0 recs,
              settings := st.settings }, ?_, ?_, rfl, fun _ => rfl, ?_⟩
    · rw [processImages, if_neg hne, ← hloop, hst]
    · exact settledImages_length optimize recs 0
    · intro i r h
      have hget := settledImages_getElem? optimize recs 0 i r h
      rw [Nat.zero_add] at hget
      constructor
      · intro processed hp
        simp only [hget, hp, outcomeRecord, markProcessed]
      · intro hn
        simp only [hget, hn, outcomeRecord]

/-- C4 at the spec's example: three pending records, the second transcode fails; records 1 and
3 end processed and record 2 ends as it was, pending. -/
theorem C4_processImages_partial_failure_witness :
    (∃ final, processImages secondFails 3 { initialState with images := threePending.map some }
        = some (final, threePending.map some) ∧
      final.images.length = threePending.length ∧
      final.settings = initialState.settings ∧
      (threePending ≠ [] → final.processedImages = successes secondFails 0 threePending) ∧
      ∀ (i : ℕ) (r : ImageRecord), threePending[i]? = some r →
        (∀ processed, secondFails i r = some processed →
          final.images[i]? = some (some
            { r with processed := some processed, isProcessed := true })) ∧
        (secondFails i r = none → final.images[i]? = some (some r))) ∧
    secondFails 0 (pendingRecord "a" "a.jpg") = some (sampleResult "a") ∧
    secondFails 1 (pendingRecord "b" "b.jpg") = none ∧
    secondFails 2 (pendingRecord "c" "c.jpg") = some (sampleResult "c") ∧
    (pendingRecord "b" "b.jpg").isPending = true ∧
    (processImages secondFails 3 { initialState with images := threePending.map some }).map
        (fun out => ((records out.1.images).map (fun r => (r.id, r.isPending)),
          out.1.processedImages.map (fun p => p.id)))
      = some ([("a", false), ("b", true), ("c", false)], ["a", "c"]) :=
  ⟨C4_processImages_partial_failure secondFails threePending
      { initialState with images := threePending.map some } 3 rfl (by decide),
    by decide, by decide, by decide, by decide, by decide⟩

theorem removeImage_idem (id : String) (st : State) :
    removeImage id (removeImage id st).state = removeImage id st := by
  simp [removeImage, List.filter_filter]

theorem filter_id_ne_of_absent (recs : List ImageRecord) (id : String)
    (h : ∀ r ∈ recs, r.id ≠ id) : recs.filter (fun r => r.id != id) = recs := by
  rw [List.filter_eq_self]
  intro r hr
  simpa using h r hr

theorem map_some_records (xs : List (Option ImageRecord)) (hx : ∀ x ∈ xs, x ≠ none) :
    (records xs).map some = xs := by
  induction xs with
  | nil => rfl
  | cons x t ih =>
    cases x with
    | none => exact absurd rfl (hx none (List.mem_cons_self _ _))
    | some r =>
      have := ih (fun y hy => hx y (List.mem_cons_of_mem _ hy))
      simpa [records] using this

theorem createImageCard_of_type (r : ImageRecord)
    (h : r.isPending = true → '/' ∈ r.type.data) : createImageCard r = true := by
  unfold createImageCard
  by_cases hp : (r.isProcessed && r.processed.isSome) = true
  · rw [if_pos hp]
  · rw [if_neg hp]
    have : r.isPending = true := by
      unfold ImageRecord.isPending
      cases hv : (r.isProcessed && r.processed.isSome)
      · rfl
      · exact absurd hv hp
    simpa using h this

/-- C5 fails as stated. In `untypedState` no record has id `zzz`, yet `removeImage("zzz")`
throws: `updateUI` re-renders the pending record, whose type holds no `/`. In `holeState`
no record has id `zzz`, yet `removeImage("zzz")` changes `state.images`: the filter drops the
hole. -/
theorem C5_counterexample :
    (∀ r ∈ records untypedState.images, r.id ≠ "zzz") ∧
    (removeImage "zzz" untypedState).threw = true ∧
    (holeState.images.map (fun x => x.map (fun r => r.id)) = [none, some "b"]) ∧
    (∀ r ∈ records holeState.images, r.id ≠ "zzz") ∧
    ((removeImage "zzz" holeState).state.images.map (fun x => x.map (fun r => r.id))
      = [some "b"]) ∧
    (removeImage "zzz" holeState).state.images ≠ holeState.images := by
  decide

/-- C5, amended: for every state and every id, `removeImage id` sets `state.images` to exactly
the records whose id differs from `id`, in their original order and without holes; no record
with that id remains; when no record has that id the records are unchanged, and the array
itself is unchanged when it had no holes; removing the same id again gives the same result; and
the call returns without throwing when every record left that is not processed has a type
containing `/`. -/
theorem C5_removeImage (st : State) (id : String) :
    (removeImage id st).state.images
      = ((records st.images).filter (fun r => r.id != id)).map some ∧
    (∀ r ∈ records (removeImage id st).state.images, r.id ≠ id) ∧
    ((∀ r ∈ records st.images, r.id ≠ id) →
      records (removeImage id st).state.images = records st.images) ∧
    ((∀ r ∈ records st.images, r.id ≠ id) → (∀ x ∈ st.images, x ≠ none) →
      (removeImage id st).state.images = st.images) ∧
    removeImage id (removeImage id st).state = removeImage id st ∧
    ((∀ r ∈ records (removeImage id st).state.images,
        r.isPending = true → '/' ∈ r.type.data) →
      (removeImage id st).threw = false) := by
  refine ⟨removeImage_images id st, ?_, ?_, ?_, removeImage_idem id st, ?_⟩
  · intro r hr
    rw [removeImage_images, records_map_some, List.mem_filter] at hr
    simpa using hr.2
  · intro h
    rw [removeImage_images, records_map_some, filter_id_ne_of_absent _ id h]
  · intro h hd
    rw [removeImage_images, filter_id_ne_of_absent _ id h]
    exact map_some_records st.images hd
  · intro h
    have hall : updateUI (removeImage id st).state = true := by
      unfold updateUI
      rw [List.all_eq_true]
      intro r hr
      exact createImageCard_of_type r (h r hr)
    have : (removeImage id st).threw = !updateUI (removeImage id st).state := rfl
    rw [this, hall]
    rfl

/-- C5 (amended) at the state with records `a` and `b`: removing the absent id `zzz` changes
nothing and returns, removing `a` leaves exactly `b`. -/
theorem C5_removeImage_witness :
    (removeImage "zzz" twoPendingState).state.images = twoPendingState.images ∧
    (removeImage "zzz" twoPendingState).threw = false ∧
    (removeImage "a" twoPendingState).state.images = [some (pendingRecord "b" "b.jpg")] :=
  ⟨(C5_removeImage twoPendingState "zzz").2.2.2.1 (by decide) (by decide),
   (C5_removeImage twoPendingState "zzz").2.2.2.2.2 (by decide),
   by decide⟩

/-- Whatever the state, a successful transcode that settles at index `i` attaches its result:
the result is pushed to `state.processedImages` and the record read before the `await` is
written into `state.images`, whether or not that record is still in the array. -/
theorem settle_attaches (st : State) (i : ℕ) (image : ImageRecord)
    (processed : ProcessedResult) :
    processed ∈ (settle st i image (some processed)).processedImages ∧
    some (markProcessed image processed) ∈ (settle st i image (some processed)).images := by
  simp [settle, mem_arrayAssign]

/-- C9 at the failing scenario: two pending records `a` and `b`, the run is suspended in
iteration 0 at the transcode of `a`, `removeImage("a")` runs, then the transcode of `a`
resolves. Had the result been dropped the state would hold record `b` only and no result.
The code instead writes the processed record `a` over index 0, which by then holds `b`:
`state.images` holds a record with the removed id, record `b` is gone, and
`state.processedImages` holds a result with the removed id. -/
theorem C9_stale_result_attached :
    (records (removeImage "a" twoPendingState).state.images).map (fun r => r.id) = ["b"] ∧
    (removeImage "a" twoPendingState).state.processedImages = [] ∧
    (optimizeImage sampleBrowser twoPendingState.settings (pendingRecord "a" "a.jpg")).isSome
      = true ∧
    (records (iterationWithRemoval
        (fun _ image => optimizeImage sampleBrowser twoPendingState.settings image)
        0 "a" twoPendingState).images).map (fun r => (r.id, r.isProcessed))
      = [("a", true)] ∧
    (iterationWithRemoval
        (fun _ image => optimizeImage sampleBrowser twoPendingState.settings image)
        0 "a" twoPendingState).processedImages.map (fun p => p.id) = ["a"] := by
  decide

end ImageMasters
